import Mathlib


/-! The sodoku graph-colouring solver (`sodoku/sodoku.c`).

A shallow embedding of the solver.  Characters are their ASCII codes
(`'-'` is 45, `'0'` is 48, `'1'..'9'` are 49..57).  The 81 byte array
`graph_t.nodes` is a list; a subscript that falls outside an array reads 0
and a write through it is dropped.  Row and column subscripts are natural
numbers, the `colored` counter, return codes, the scan cursor of
`sodoku_color` and the subscript `c - 0x30 - 1` are C `int`s and are integers
here.
-/

/-- The struct `graph_t`: 81 vertex colours and the number of coloured ones. -/
structure graph_t where
  nodes : List Nat
  colored : Int
  deriving DecidableEq

/-- The struct `sodoku_set_member` of `sodoku.c`. -/
structure sodoku_set_member where
  x : Nat
  y : Nat
  count : Int
  deriving DecidableEq

/-- Write `adj[i] = v` for an `int` subscript; out of range writes are dropped. -/
def adj_write (adj : List Nat) (i : Int) (v : Nat) : List Nat :=
  if 0 ≤ i then adj.set i.toNat v else adj

/-- Read `adj[i]` for an `int` subscript; out of range reads give 0. -/
def adj_read (adj : List Nat) (i : Int) : Nat :=
  if 0 ≤ i then adj.getD i.toNat 0 else 0

/-- `sodoku_init`: every vertex becomes `'-'`, `colored` becomes 0. -/
def sodoku_init (graph : graph_t) : graph_t :=
  let g := (List.range 9).foldl (fun g i =>
    (List.range 9).foldl (fun (g : graph_t) j =>
      { g with nodes := g.nodes.set (i * 9 + j) 45 }) g) graph
  { g with colored := 0 }

/-- `sodoku_node_value`: the colour of vertex `(x, y)`. -/
def sodoku_node_value (graph : graph_t) (x y : Nat) : Nat :=
  graph.nodes.getD (x * 9 + y) 0

/-- `sodoku_init_relationship_map`: the loop runs `i = 0 .. 9` inclusive. -/
def sodoku_init_relationship_map (adj : List Nat) : List Nat :=
  (List.range 10).foldl (fun a i => a.set i 0) adj

/-- `sodoku_add_relationship_mapping`: mark the colour of `(to_x, to_y)`
unless it is the vertex `(from_x, from_y)` itself or it is uncoloured. -/
def sodoku_add_relationship_mapping (graph : graph_t) (from_x from_y to_x to_y : Nat)
    (adj : List Nat) : List Nat :=
  if from_x ≠ to_x ∨ from_y ≠ to_y then
    let c := sodoku_node_value graph to_x to_y
    if c ≠ 45 then adj_write adj ((c : Int) - 48 - 1) 1 else adj
  else adj

/-- `sodoku_fetch_adj_values`: the adjacency set of `(x, y)`: row and column
first, then the 3x3 block. -/
def sodoku_fetch_adj_values (graph : graph_t) (x y : Nat) (adj : List Nat) : List Nat :=
  let adj := sodoku_init_relationship_map adj
  let adj := (List.range 9).foldl (fun a i =>
    sodoku_add_relationship_mapping graph x y i y
      (sodoku_add_relationship_mapping graph x y x i a)) adj
  let base_x := (x / 3) * 3
  let base_y := (y / 3) * 3
  (List.range 3).foldl (fun a i =>
    (List.range 3).foldl (fun a j =>
      sodoku_add_relationship_mapping graph x y (base_x + i) (base_y + j) a) a) adj

/-- `sodoku_count_adj`: the cardinality of the adjacency set of `(x, y)`. -/
def sodoku_count_adj (graph : graph_t) (x y : Nat) : Int :=
  let adj := sodoku_fetch_adj_values graph x y (List.replicate 9 0)
  (List.range 9).foldl (fun count i => if adj.getD i 0 ≠ 0 then count + 1 else count) 0

/-- `sodoku_fetch_next_node`: the result is `(rtn, *p_x, *p_y)`. -/
def sodoku_fetch_next_node (graph : graph_t) (p_x p_y : Int) : Int × Int × Int :=
  (List.range 9).foldl (fun st i =>
    (List.range 9).foldl (fun (st : Int × Int × Int) j =>
      if sodoku_node_value graph i j = 45 then
        let p := sodoku_count_adj graph i j
        if ((i : Int) * 9 + j) > (st.2.1 * 9 + st.2.2) then
          if p > st.1 ∧ p ≠ 9 then (1, (i : Int), (j : Int)) else st
        else st
      else st) st) (0, p_x, p_y)

/-- `sodoku_interferes`: 1 when the colour of `(x, y)` is in its adjacency set. -/
def sodoku_interferes (graph : graph_t) (x y : Nat) : Int :=
  let adj := sodoku_fetch_adj_values graph x y (List.replicate 9 0)
  let c := sodoku_node_value graph x y
  if c ≠ 45 then (adj_read adj ((c : Int) - 48 - 1) : Int) else 0

/-- `sodoku_set`: the result is `(rtn, graph)`. -/
def sodoku_set (graph : graph_t) (x y : Nat) (c : Nat) : Int × graph_t :=
  let old := graph.nodes.getD (x * 9 + y) 0
  let g : graph_t := { graph with nodes := graph.nodes.set (x * 9 + y) c }
  if c = 45 ∧ old ≠ c then
    (0, { g with colored := g.colored - 1 })
  else if c ≠ 45 ∧ old = 45 then
    if sodoku_interferes g x y ≠ 0 then
      (0, { g with nodes := g.nodes.set (x * 9 + y) old })
    else
      (1, { g with colored := g.colored + 1 })
  else (0, g)

/-- `isdigit` on a character code. -/
def isdigit (c : Nat) : Bool := 48 ≤ c && c ≤ 57

/-- `sodoku_read`: the stream is the list of characters `fscanf` delivers;
the result is `(read == 81, graph)`. -/
def sodoku_read (fp : List Nat) (graph : graph_t) : Int × graph_t :=
  let st := fp.foldl (fun (st : graph_t × Nat) c =>
    if isdigit c = true ∨ c = 45 then
      let x := st.2 / 9
      let y := st.2 % 9
      ((sodoku_set st.1 x y c).2, st.2 + 1)
    else st) (graph, 0)
  (if st.2 = 81 then 1 else 0, st.1)

/-- The entry `colors[i][j]` of the 9x9 table of `sodoku_quick_color`. -/
def colors_get (colors : List sodoku_set_member) (i j : Nat) : sodoku_set_member :=
  colors.getD (i * 9 + j) ⟨0, 0, 0⟩

/-- Assign the entry `colors[i][j]`. -/
def colors_put (colors : List sodoku_set_member) (i j : Nat) (m : sodoku_set_member) :
    List sodoku_set_member :=
  colors.set (i * 9 + j) m

/-- First loop nest of a `sodoku_quick_color` pass: every count back to 0. -/
def quick_color_reset (colors : List sodoku_set_member) : List sodoku_set_member :=
  (List.range 9).foldl (fun cs i =>
    (List.range 9).foldl (fun cs j =>
      colors_put cs i j { colors_get cs i j with count := 0 }) cs) colors

/-- Second loop nest of a pass: for every uncoloured vertex and every colour
it supports, record the vertex in the set of its block. -/
def quick_color_build (graph : graph_t) (colors : List sodoku_set_member) :
    List sodoku_set_member :=
  (List.range 9).foldl (fun cs i =>
    (List.range 9).foldl (fun cs j =>
      let base_x := i / 3
      let base_y := j / 3
      if graph.nodes.getD (i * 9 + j) 0 = 45 then
        let adj := sodoku_fetch_adj_values graph i j (List.replicate 9 0)
        (List.range 9).foldl (fun cs k =>
          if adj.getD k 0 = 0 then
            colors_put cs (base_x * 3 + base_y) k
              ⟨i, j, (colors_get cs (base_x * 3 + base_y) k).count + 1⟩
          else cs) cs
      else cs) cs) colors

/-- Third loop nest of a pass: colour the vertex of every singleton set;
the state is `(graph, rtn)`. -/
def quick_color_apply (colors : List sodoku_set_member) (st : graph_t × Int) :
    graph_t × Int :=
  (List.range 9).foldl (fun st i =>
    (List.range 9).foldl (fun (st : graph_t × Int) j =>
      if (colors_get colors i j).count = 1 then
        let g := (sodoku_set st.1 (colors_get colors i j).x (colors_get colors i j).y
          (j + 1 + 48)).2
        (g, g.colored)
      else st) st) st

/-- One iteration of the `do .. while(rtn)` body of `sodoku_quick_color`. -/
def quick_color_pass (graph : graph_t) (colors : List sodoku_set_member) :
    (graph_t × Int) × List sodoku_set_member :=
  let cs := quick_color_build graph (quick_color_reset colors)
  (quick_color_apply cs (graph, 0), cs)

/-- The `do .. while(rtn)` loop, with a bound on the number of passes. -/
def quick_color_loop : Nat → graph_t → List sodoku_set_member → Option (Int × graph_t)
  | 0, _, _ => none
  | n + 1, graph, colors =>
    let r := quick_color_pass graph colors
    if r.1.2 ≠ 0 then quick_color_loop n r.1.1 r.2 else some (r.1.2, r.1.1)

/-- `sodoku_quick_color`: the result is `(rtn, graph)`; `none` would mean the
pass bound 82 was not enough. -/
def sodoku_quick_color (graph : graph_t) : Option (Int × graph_t) :=
  quick_color_loop 82 graph (List.replicate 81 ⟨0, 0, 0⟩)

/-- `sodoku_push_state`: a copy of the graph. -/
def sodoku_push_state (graph : graph_t) : graph_t :=
  let rtn : graph_t := ⟨List.replicate 81 0, 0⟩
  let rtn := (List.range 81).foldl (fun (r : graph_t) i =>
    { r with nodes := r.nodes.set i (graph.nodes.getD i 0) }) rtn
  { rtn with colored := graph.colored }

/-- `sodoku_pop_state`: restore `to` from `from` unless `to` is fully coloured. -/
def sodoku_pop_state (to_g from_g : graph_t) : graph_t :=
  if to_g.colored ≠ 81 then
    let t := (List.range 81).foldl (fun (t : graph_t) i =>
      { t with nodes := t.nodes.set i (from_g.nodes.getD i 0) }) to_g
    { t with colored := from_g.colored }
  else to_g

/-- The `for(i = 0; i < 9; i++)` loop of `sodoku_color` over the colours of
vertex `(x, y)`; `rec` is the recursive call; the state is `(graph, rtn)`. -/
def color_for (rec : graph_t → Option (Int × graph_t)) (x y : Nat) (adj : List Nat) :
    List Nat → graph_t → Int → Option (graph_t × Int)
  | [], g, rtn => some (g, rtn)
  | i :: rest, g, rtn =>
    if adj.getD i 0 = 0 then
      let s := sodoku_set g x y (i + 1 + 48)
      if s.1 ≠ 0 then
        match rec s.2 with
        | none => none
        | some r =>
          if r.1 ≠ 0 then some (r.2, r.2.colored)
          else color_for rec x y adj rest (sodoku_set r.2 x y 45).2 rtn
      else color_for rec x y adj rest (sodoku_set s.2 x y 45).2 rtn
    else color_for rec x y adj rest g rtn

/-- The `while(sodoku_fetch_next_node(..))` loop of `sodoku_color`, with a
bound on the number of iterations; the state is `(graph, x, y, rtn)`. -/
def color_while (rec : graph_t → Option (Int × graph_t)) :
    Nat → graph_t → Int → Int → Int → Option (graph_t × Int)
  | 0, _, _, _, _ => none
  | n + 1, g, x, y, rtn =>
    let f := sodoku_fetch_next_node g x y
    if f.1 ≠ 0 then
      let adj := sodoku_fetch_adj_values g f.2.1.toNat f.2.2.toNat (List.replicate 9 0)
      match color_for rec f.2.1.toNat f.2.2.toNat adj (List.range 9) g rtn with
      | none => none
      | some r => color_while rec n r.1 f.2.1 f.2.2 r.2
    else some (g, rtn)

/-- `sodoku_color`: the result is `(rtn, graph)`; the first argument bounds
the recursion depth, `none` means the bound was not enough. -/
def sodoku_color : Nat → graph_t → Option (Int × graph_t)
  | 0, _ => none
  | fuel + 1, graph =>
    let top := sodoku_push_state graph
    match sodoku_quick_color graph with
    | none => none
    | some q =>
      if q.2.colored = 81 then some (q.2.colored, sodoku_pop_state q.2 top)
      else
        match color_while (sodoku_color fuel) 82 q.2 (-1) (-1) 0 with
        | none => none
        | some r => some (r.2, sodoku_pop_state r.1 top)


/-- The block coordinates agree: `(i, j)` lies in the 3x3 block of `(x, y)`. -/
def same_block (x y i j : Nat) : Prop := i / 3 = x / 3 ∧ j / 3 = y / 3

/-- Vertex `(i, j)` is a peer of `(x, y)`: another vertex of the same row,
column or 3x3 block. -/
def peer (x y i j : Nat) : Prop :=
  (i ≠ x ∨ j ≠ y) ∧ (i = x ∨ j = y ∨ same_block x y i j)

/-- Colour `c` is held by some peer of `(x, y)`. -/
def peer_holds (g : graph_t) (x y c : Nat) : Prop :=
  ∃ i, i < 9 ∧ ∃ j, j < 9 ∧ peer x y i j ∧ sodoku_node_value g i j = c

/-- The number of coloured (non `'-'`) cells of a node array. -/
def filled (nodes : List Nat) : Nat := nodes.countP (fun c => c != 45)

/-- A character that a cell may hold: `'-'` or `'1'..'9'`. -/
def cell_ok (c : Nat) : Prop := c = 45 ∨ (49 ≤ c ∧ c ≤ 57)

/-- The data model of the grid: 81 cells, each `'-'` or a digit `'1'..'9'`. -/
def grid_shape (g : graph_t) : Prop :=
  g.nodes.length = 81 ∧ ∀ c ∈ g.nodes, cell_ok c

/-- The grid invariant: `colored` is the number of non `'-'` cells. -/
def colored_inv (g : graph_t) : Prop := g.colored = (filled g.nodes : Int)

/-- No coloured cell has its colour repeated in a peer. -/
def no_conflict (g : graph_t) : Prop :=
  ∀ x, x < 9 → ∀ y, y < 9 → sodoku_node_value g x y ≠ 45 →
    ¬ peer_holds g x y (sodoku_node_value g x y)

/-- A completed valid Sudoku: every cell holds a digit and no digit is
repeated among peers. -/
def solved (g : graph_t) : Prop :=
  grid_shape g ∧ (∀ x, x < 9 → ∀ y, y < 9 → sodoku_node_value g x y ≠ 45) ∧ no_conflict g

instance (x y i j : Nat) : Decidable (same_block x y i j) := by
  unfold same_block; infer_instance

instance (x y i j : Nat) : Decidable (peer x y i j) := by
  unfold peer; infer_instance

instance (g : graph_t) (x y c : Nat) : Decidable (peer_holds g x y c) := by
  unfold peer_holds; infer_instance

instance (c : Nat) : Decidable (cell_ok c) := by
  unfold cell_ok; infer_instance

instance (g : graph_t) : Decidable (grid_shape g) := by
  unfold grid_shape; infer_instance

instance (g : graph_t) : Decidable (colored_inv g) := by
  unfold colored_inv; infer_instance

instance (g : graph_t) : Decidable (no_conflict g) := by
  unfold no_conflict; infer_instance

instance (g : graph_t) : Decidable (solved g) := by
  unfold solved; infer_instance

/-- Every coloured cell of `g` holds the same colour in `h`. -/
def keeps (g h : graph_t) : Prop :=
  ∀ x, x < 9 → ∀ y, y < 9 → sodoku_node_value g x y ≠ 45 →
    sodoku_node_value h x y = sodoku_node_value g x y

/-- No colour occurs twice inside a 3x3 block. -/
def block_distinct (g : graph_t) : Prop :=
  ∀ x, x < 9 → ∀ y, y < 9 → ∀ i, i < 9 → ∀ j, j < 9 → same_block x y i j →
    (i ≠ x ∨ j ≠ y) → sodoku_node_value g x y ≠ 45 →
    sodoku_node_value g i j ≠ sodoku_node_value g x y

/-- Colour `c` is shut out of block `b`: no cell of the block holds it and
every uncoloured cell of the block has it among its peers. -/
def shut_out (g : graph_t) (b c : Nat) : Prop :=
  ∀ i, i < 9 → ∀ j, j < 9 → i / 3 * 3 + j / 3 = b →
    sodoku_node_value g i j ≠ c ∧ (sodoku_node_value g i j = 45 → peer_holds g i j c)

/-- Some digit is shut out of some block. -/
def stuck (g : graph_t) : Prop :=
  ∃ b, b < 9 ∧ ∃ k, k < 9 ∧ shut_out g b (k + 49)

/-- The property the search maintains from a conflict free start: blocks
stay duplicate free, and the grid is conflict free or can never be completed. -/
def sound_inv (g : graph_t) : Prop :=
  block_distinct g ∧ (no_conflict g ∨ stuck g)

/-- Vertex `(i, j)` supports colour `k + 1` for block `b`: it lies in the
block, is uncoloured and no peer holds the colour. -/
def supports (g : graph_t) (b k i j : Nat) : Prop :=
  i / 3 * 3 + j / 3 = b ∧ sodoku_node_value g i j = 45 ∧ ¬ peer_holds g i j (k + 49)

/-- What the second loop nest of a pass leaves in the table: a positive
count records a supporting vertex, a count of one records the only one. -/
def build_ok (g : graph_t) (colors : List sodoku_set_member) : Prop :=
  colors.length = 81 ∧ ∀ b, b < 9 → ∀ k, k < 9 →
    (1 ≤ (colors_get colors b k).count →
      (colors_get colors b k).x < 9 ∧ (colors_get colors b k).y < 9 ∧
        supports g b k (colors_get colors b k).x (colors_get colors b k).y) ∧
    ((colors_get colors b k).count = 1 → ∀ i, i < 9 → ∀ j, j < 9 → supports g b k i j →
      i = (colors_get colors b k).x ∧ j = (colors_get colors b k).y)

/-- The colour of `(x, y)` was written by one of the first `n` entries of the
table (in the order of the third loop nest), a singleton set naming `(x, y)`. -/
def placed (colors : List sodoku_set_member) (n : Nat) (g : graph_t) (x y : Nat) : Prop :=
  ∃ b, b < 9 ∧ ∃ k, k < 9 ∧ b * 9 + k < n ∧ (colors_get colors b k).count = 1 ∧
    (colors_get colors b k).x = x ∧ (colors_get colors b k).y = y ∧
    sodoku_node_value g x y = k + 49

/-- One of the first `n` entries is a singleton set whose vertex is coloured
with another colour: that colour of the block was overwritten. -/
def lost (colors : List sodoku_set_member) (n : Nat) (g : graph_t) : Prop :=
  ∃ b, b < 9 ∧ ∃ k, k < 9 ∧ b * 9 + k < n ∧ (colors_get colors b k).count = 1 ∧
    sodoku_node_value g (colors_get colors b k).x (colors_get colors b k).y ≠ 45 ∧
    sodoku_node_value g (colors_get colors b k).x (colors_get colors b k).y ≠ k + 49

/-- The invariant of the third loop nest of a pass after `n` entries, for a
pass started on `g0` with table `colors`; the state is `(graph, rtn)`. -/
def apply_inv (g0 : graph_t) (colors : List sodoku_set_member) (n : Nat)
    (st : graph_t × Int) : Prop :=
  grid_shape st.1 ∧ colored_inv st.1 ∧ keeps g0 st.1 ∧
  (∀ x, x < 9 → ∀ y, y < 9 → sodoku_node_value g0 x y = 45 →
    sodoku_node_value st.1 x y ≠ 45 → placed colors n st.1 x y) ∧
  ((st.1 = g0 ∧ st.2 = 0 ∧
      ∀ b, b < 9 → ∀ k, k < 9 → b * 9 + k < n → (colors_get colors b k).count ≠ 1) ∨
    (filled g0.nodes < filled st.1.nodes ∧ st.2 = st.1.colored)) ∧
  (block_distinct g0 → block_distinct st.1) ∧
  (no_conflict g0 → no_conflict st.1 ∨ lost colors n st.1)

/-- What one pass of `sodoku_quick_color` started on `g0` guarantees for the
grid `g` and the value `rtn` it ends with. -/
def pass_post (g0 g : graph_t) (rtn : Int) : Prop :=
  grid_shape g ∧ colored_inv g ∧ keeps g0 g ∧
  ((rtn = 0 ∧ g = g0) ∨ (rtn ≠ 0 ∧ filled g0.nodes < filled g.nodes)) ∧
  (sound_inv g0 → sound_inv g)

/-- A successful search from `g` ended in `h`: fully coloured, well formed,
the coloured cells of `g` kept, the search invariant carried over. -/
def win (g h : graph_t) : Prop :=
  h.colored = 81 ∧ grid_shape h ∧ colored_inv h ∧ keeps g h ∧ (sound_inv g → sound_inv h)

/-- What a call of `sodoku_color` on `g` guarantees for its result
`(rtn, graph)`: failure with the grid restored, or success. -/
def color_post (g : graph_t) (r : Int × graph_t) : Prop :=
  (r.1 = 0 ∧ r.2 = g ∧ g.colored ≠ 81) ∨ (r.1 = 81 ∧ win g r.2)

/-- The grid of 81 `'-'` cells. -/
def empty_grid : graph_t := ⟨List.replicate 81 45, 0⟩

/-- A puzzle with 30 givens. -/
def classic_puzzle : graph_t :=
  ⟨[53, 51, 45, 45, 55, 45, 45, 45, 45,
    54, 45, 45, 49, 57, 53, 45, 45, 45,
    45, 57, 56, 45, 45, 45, 45, 54, 45,
    56, 45, 45, 45, 54, 45, 45, 45, 51,
    52, 45, 45, 56, 45, 51, 45, 45, 49,
    55, 45, 45, 45, 50, 45, 45, 45, 54,
    45, 54, 45, 45, 45, 45, 50, 56, 45,
    45, 45, 45, 52, 49, 57, 45, 45, 53,
    45, 45, 45, 45, 56, 45, 45, 55, 57], 30⟩

/-- A completed valid grid (the completion of `classic_puzzle`). -/
def classic_solution : graph_t :=
  ⟨[53, 51, 52, 54, 55, 56, 57, 49, 50,
    54, 55, 50, 49, 57, 53, 51, 52, 56,
    49, 57, 56, 51, 52, 50, 53, 54, 55,
    56, 53, 57, 55, 54, 49, 52, 50, 51,
    52, 50, 54, 56, 53, 51, 55, 57, 49,
    55, 49, 51, 57, 50, 52, 56, 53, 54,
    57, 54, 49, 53, 51, 55, 50, 56, 52,
    50, 56, 55, 52, 49, 57, 54, 51, 53,
    51, 52, 53, 50, 56, 54, 49, 55, 57], 81⟩

/-- The completed grid with cells (0,3) and (1,3) exchanged, so that row 0
holds `'1'` twice (columns 3 and 7), and cell (0,8) uncoloured. -/
def conflict_grid : graph_t :=
  ⟨[53, 51, 52, 49, 55, 56, 57, 49, 45,
    54, 55, 50, 54, 57, 53, 51, 52, 56,
    49, 57, 56, 51, 52, 50, 53, 54, 55,
    56, 53, 57, 55, 54, 49, 52, 50, 51,
    52, 50, 54, 56, 53, 51, 55, 57, 49,
    55, 49, 51, 57, 50, 52, 56, 53, 54,
    57, 54, 49, 53, 51, 55, 50, 56, 52,
    50, 56, 55, 52, 49, 57, 54, 51, 53,
    51, 52, 53, 50, 56, 54, 49, 55, 57], 80⟩

/-- The test of `sodoku_read` on a character: `isdigit(c) || c == '-'`. -/
def qualifies (c : Nat) : Bool := isdigit c || c == 45

/-- An input of 82 `'-'` characters. -/
def long_input : List Nat := List.replicate 82 45

/-- An input of one `'0'` followed by 80 `'-'` characters. -/
def zero_input : List Nat := 48 :: List.replicate 80 45

/-- A conflict free grid with 14 uncoloured cells in which cell (8,2) is the
only vertex of block 6 that supports `'6'` and the only one that supports
`'8'`, while cell (2,2) is the only vertex of block 0 that supports `'8'`. -/
def overwrite_grid : graph_t :=
  ⟨[49, 55, 53, 45, 57, 52, 50, 51, 45,
    52, 45, 50, 56, 49, 55, 45, 54, 57,
    51, 57, 45, 45, 54, 50, 55, 53, 52,
    50, 51, 55, 49, 53, 54, 57, 45, 56,
    56, 53, 52, 57, 50, 51, 54, 45, 55,
    45, 54, 57, 52, 55, 56, 51, 50, 49,
    55, 45, 49, 54, 45, 57, 56, 52, 53,
    57, 52, 51, 50, 56, 53, 49, 55, 54,
    53, 50, 45, 51, 52, 49, 45, 57, 45], 67⟩

instance (g h : graph_t) : Decidable (keeps g h) := by
  unfold keeps; infer_instance

/-- The subscripts of `adj` that `sodoku_init_relationship_map` writes, in
order: the statement `adj[i] = 0` for `i = 0 .. 9`. -/
def init_relationship_map_subscripts : List Int :=
  (List.range 10).foldl (fun acc i => acc ++ [(i : Int)]) []

/-- The subscript of `adj` that `sodoku_add_relationship_mapping` writes
(`adj[c - 0x30 - 1] = 1`), if it writes one. -/
def add_relationship_mapping_subscripts (graph : graph_t) (from_x from_y to_x to_y : Nat) :
    List Int :=
  if from_x ≠ to_x ∨ from_y ≠ to_y then
    let c := sodoku_node_value graph to_x to_y
    if c ≠ 45 then [(c : Int) - 48 - 1] else []
  else []

/-- The subscripts of `adj` that a call of `sodoku_fetch_adj_values` writes,
in order: those of the initialisation, of the row and column loop and of the
block loops. -/
def fetch_adj_values_subscripts (graph : graph_t) (x y : Nat) : List Int :=
  let acc := init_relationship_map_subscripts
  let acc := (List.range 9).foldl (fun acc i =>
    (acc ++ add_relationship_mapping_subscripts graph x y x i)
      ++ add_relationship_mapping_subscripts graph x y i y) acc
  let base_x := (x / 3) * 3
  let base_y := (y / 3) * 3
  (List.range 3).foldl (fun acc i =>
    (List.range 3).foldl (fun acc j =>
      acc ++ add_relationship_mapping_subscripts graph x y (base_x + i) (base_y + j)) acc) acc


/-! ## Loop invariants for counted loops -/

theorem foldl_range_inv {σ : Type} (P : Nat → σ → Prop) (f : σ → Nat → σ) (m : Nat) (s : σ)
    (h0 : P 0 s) (hstep : ∀ i t, i < m → P i t → P (i + 1) (f t i)) :
    P m ((List.range m).foldl f s) := by
  have key : ∀ n, n ≤ m → P n ((List.range n).foldl f s) := by
    intro n
    induction n with
    | zero => intro _; simpa using h0
    | succ n ih =>
      intro hn
      rw [List.range_succ, List.foldl_append]
      exact hstep n _ (by omega) (ih (by omega))
  exact key m (Nat.le_refl m)

theorem foldl_range2_inv {σ : Type} (P : Nat → σ → Prop) (f : σ → Nat → Nat → σ)
    (a b : Nat) (s : σ) (h0 : P 0 s)
    (hstep : ∀ i j t, i < a → j < b → P (i * b + j) t → P (i * b + j + 1) (f t i j)) :
    P (a * b) ((List.range a).foldl (fun t i => (List.range b).foldl (fun t j => f t i j) t) s) := by
  apply foldl_range_inv (fun i t => P (i * b) t)
  · simpa using h0
  · intro i t hi ht
    have h := foldl_range_inv (fun j t => P (i * b + j) t) (fun t j => f t i j) b t
      (by simpa using ht) (fun j u hj hu => hstep i j u hi hj hu)
    have e : (i + 1) * b = i * b + b := by rw [Nat.succ_mul]
    simpa [e] using h

/-! ## Arrays as lists -/

theorem getD_set (l : List Nat) (i k v : Nat) :
    (l.set i v).getD k 0 = if i = k ∧ i < l.length then v else l.getD k 0 := by
  simp only [List.getD_eq_getElem?_getD, List.getElem?_set]
  by_cases h : i = k
  · subst h
    by_cases h2 : i < l.length
    · simp [h2]
    · simp [h2, List.getElem?_eq_none (Nat.le_of_not_lt h2)]
  · simp [h]

theorem getD_set_self (l : List Nat) (i v : Nat) (h : i < l.length) :
    (l.set i v).getD i 0 = v := by
  rw [getD_set]; simp [h]

theorem getD_set_ne (l : List Nat) (i k v : Nat) (h : i ≠ k) :
    (l.set i v).getD k 0 = l.getD k 0 := by
  rw [getD_set]; simp [h]

theorem set_getD_self (l : List Nat) (i : Nat) : l.set i (l.getD i 0) = l := by
  apply List.ext_getElem?
  intro k
  rw [List.getElem?_set]
  by_cases h : i = k
  · subst h
    by_cases h2 : i < l.length
    · simp [h2, List.getD_eq_getElem?_getD, List.getElem?_eq_getElem h2]
    · simp [h2, List.getElem?_eq_none (Nat.le_of_not_lt h2)]
  · simp [h]

theorem set_set_getD (l : List Nat) (i v : Nat) : (l.set i v).set i (l.getD i 0) = l := by
  rw [List.set_set, set_getD_self]

theorem list_ext_getD (l m : List Nat) (h : l.length = m.length)
    (hk : ∀ k, k < l.length → l.getD k 0 = m.getD k 0) : l = m := by
  apply List.ext_getElem h
  intro k h1 h2
  have := hk k h1
  simpa [List.getD_eq_getElem?_getD, List.getElem?_eq_getElem h1, List.getElem?_eq_getElem h2]
    using this

theorem getD_mem (l : List Nat) (k : Nat) (h : k < l.length) : l.getD k 0 ∈ l := by
  simp [List.getD_eq_getElem?_getD, List.getElem?_eq_getElem h]

theorem filled_set (l : List Nat) (i v : Nat) (h : i < l.length) :
    filled (l.set i v) + (if l.getD i 0 = 45 then 0 else 1)
      = filled l + (if v = 45 then 0 else 1) := by
  induction l generalizing i with
  | nil => simp at h
  | cons a t ih =>
    cases i with
    | zero =>
      simp only [List.set_cons_zero, filled, List.countP_cons, List.getD_cons_zero]
      by_cases ha : a = 45 <;> by_cases hv : v = 45 <;> simp [ha, hv]
    | succ i =>
      have h2 : i < t.length := by simpa using h
      have := ih i h2
      simp only [List.set_cons_succ, filled, List.countP_cons, List.getD_cons_succ] at this ⊢
      omega

theorem filled_le_length (l : List Nat) : filled l ≤ l.length := by
  unfold filled; exact List.countP_le_length _

theorem filled_eq_length (l : List Nat) (h : filled l = l.length) :
    ∀ k, k < l.length → l.getD k 0 ≠ 45 := by
  induction l with
  | nil => intro k hk; simp at hk
  | cons a t ih =>
    intro k hk
    have hle := filled_le_length t
    simp only [filled, List.countP_cons, List.length_cons] at h
    have hc : List.countP (fun c => c != 45) t ≤ t.length := hle
    by_cases ha : a = 45
    · simp only [ha, bne_self_eq_false, Bool.false_eq_true, ite_false] at h; omega
    · have ha2 : (a != 45) = true := by simpa using ha
      simp only [ha2, ite_true] at h
      cases k with
      | zero => simpa using ha
      | succ k =>
        simp only [List.getD_cons_succ]
        exact ih (by unfold filled; omega) k (by simpa using hk)

theorem filled_lt_of_empty (l : List Nat) (k : Nat) (hk : k < l.length)
    (h : l.getD k 0 = 45) : filled l < l.length := by
  have := filled_le_length l
  by_contra hc
  exact filled_eq_length l (by omega) k hk h


/-! ## The adjacency set -/

theorem init_map_eq (adj : List Nat) (h : adj.length = 9) :
    sodoku_init_relationship_map adj = List.replicate 9 0 := by
  match adj, h with
  | [_, _, _, _, _, _, _, _, _], _ => rfl

theorem adj_write_length (adj : List Nat) (i : Int) (v : Nat) :
    (adj_write adj i v).length = adj.length := by
  unfold adj_write; split <;> simp

theorem add_mapping_length (g : graph_t) (x y tx ty : Nat) (a : List Nat) :
    (sodoku_add_relationship_mapping g x y tx ty a).length = a.length := by
  unfold sodoku_add_relationship_mapping
  split
  · simp only []
    split
    · exact adj_write_length _ _ _
    · rfl
  · rfl

theorem add_mapping_getD (g : graph_t) (x y tx ty : Nat) (a : List Nat) (k : Nat)
    (hk : k < a.length) :
    (sodoku_add_relationship_mapping g x y tx ty a).getD k 0 ≠ 0 ↔
      a.getD k 0 ≠ 0 ∨ ((x ≠ tx ∨ y ≠ ty) ∧ sodoku_node_value g tx ty = k + 49) := by
  unfold sodoku_add_relationship_mapping
  by_cases h1 : x ≠ tx ∨ y ≠ ty
  · rw [if_pos h1]
    simp only []
    by_cases h2 : sodoku_node_value g tx ty ≠ 45
    · rw [if_pos h2]
      unfold adj_write
      by_cases h3 : (0 : Int) ≤ (sodoku_node_value g tx ty : Int) - 48 - 1
      · rw [if_pos h3, getD_set]
        by_cases h4 : ((sodoku_node_value g tx ty : Int) - 48 - 1).toNat = k
        · rw [if_pos ⟨h4, by rw [h4]; exact hk⟩]
          constructor
          · intro _; exact Or.inr ⟨h1, by omega⟩
          · intro _; exact Nat.one_ne_zero
        · rw [if_neg (fun h => h4 h.1)]
          constructor
          · intro h; exact Or.inl h
          · rintro (h | ⟨_, h⟩)
            · exact h
            · omega
      · rw [if_neg h3]
        constructor
        · intro h; exact Or.inl h
        · rintro (h | ⟨_, h⟩)
          · exact h
          · omega
    · rw [if_neg h2]
      have h2' : sodoku_node_value g tx ty = 45 := by simpa using h2
      constructor
      · intro h; exact Or.inl h
      · rintro (h | ⟨_, h⟩)
        · exact h
        · omega
  · rw [if_neg h1]
    constructor
    · intro h; exact Or.inl h
    · rintro (h | ⟨h, _⟩)
      · exact h
      · exact absurd h h1

theorem foldl_mark {α : Type} (step : List Nat → α → List Nat) (Q : α → Prop) (k n : Nat)
    (hlen : ∀ a i, (step a i).length = a.length)
    (hstep : ∀ a i, a.length = n → ((step a i).getD k 0 ≠ 0 ↔ a.getD k 0 ≠ 0 ∨ Q i)) :
    ∀ (L : List α) (a : List Nat), a.length = n →
      ((L.foldl step a).length = n ∧
        ((L.foldl step a).getD k 0 ≠ 0 ↔ a.getD k 0 ≠ 0 ∨ ∃ i, i ∈ L ∧ Q i)) := by
  intro L
  induction L with
  | nil => intro a ha; simp [ha]
  | cons t L ih =>
    intro a ha
    have h1 := ih (step a t) (by rw [hlen]; exact ha)
    simp only [List.foldl_cons]
    refine ⟨h1.1, ?_⟩
    rw [h1.2, hstep a t ha]
    constructor
    · rintro (h | h)
      · rcases h with h | h
        · exact Or.inl h
        · exact Or.inr ⟨t, by simp, h⟩
      · obtain ⟨i, hi, hq⟩ := h
        exact Or.inr ⟨i, by simp [hi], hq⟩
    · rintro (h | ⟨i, hi, hq⟩)
      · exact Or.inl (Or.inl h)
      · simp only [List.mem_cons] at hi
        rcases hi with rfl | hi
        · exact Or.inl (Or.inr hq)
        · exact Or.inr ⟨i, hi, hq⟩

theorem fetch_adj_length (g : graph_t) (x y : Nat) (adj : List Nat) (h : adj.length = 9) :
    (sodoku_fetch_adj_values g x y adj).length = 9 := by
  unfold sodoku_fetch_adj_values
  rw [init_map_eq adj h]
  simp only []
  apply foldl_range2_inv (fun _ (t : List Nat) => t.length = 9)
    (fun a i j => sodoku_add_relationship_mapping g x y (x / 3 * 3 + i) (y / 3 * 3 + j) a)
  · apply foldl_range_inv (fun _ (t : List Nat) => t.length = 9)
    · simp
    · intro i t _ ht
      dsimp only at ht ⊢
      rw [add_mapping_length, add_mapping_length]; exact ht
  · intro i j t _ _ ht
    rw [add_mapping_length]; exact ht

/-- The adjacency set of `(x, y)` flags colour `k + 1` exactly when a peer holds it. -/
theorem fetch_adj_spec (g : graph_t) (x y k : Nat) (hx : x < 9) (hy : y < 9) (hk : k < 9) :
    (sodoku_fetch_adj_values g x y (List.replicate 9 0)).getD k 0 ≠ 0 ↔
      peer_holds g x y (k + 49) := by
  unfold sodoku_fetch_adj_values
  rw [init_map_eq _ (by simp)]
  simp only []
  have row := foldl_mark (fun a i => sodoku_add_relationship_mapping g x y i y
      (sodoku_add_relationship_mapping g x y x i a))
      (fun i => ((x ≠ x ∨ y ≠ i) ∧ sodoku_node_value g x i = k + 49) ∨
        ((x ≠ i ∨ y ≠ y) ∧ sodoku_node_value g i y = k + 49)) k 9
      (fun a i => by simp [add_mapping_length])
      (fun a i ha => by
        rw [add_mapping_getD _ _ _ _ _ _ _ (by rw [add_mapping_length]; omega),
          add_mapping_getD _ _ _ _ _ _ _ (by omega)]
        tauto) (List.range 9) (List.replicate 9 0) (by simp)
  have inner : ∀ (i : Nat) (a : List Nat), a.length = 9 →
      (((List.range 3).foldl (fun a j =>
        sodoku_add_relationship_mapping g x y (x / 3 * 3 + i) (y / 3 * 3 + j) a) a).length = 9 ∧
      (((List.range 3).foldl (fun a j =>
        sodoku_add_relationship_mapping g x y (x / 3 * 3 + i) (y / 3 * 3 + j) a) a).getD k 0 ≠ 0
        ↔ a.getD k 0 ≠ 0 ∨ ∃ j, j ∈ List.range 3 ∧
          ((x ≠ x / 3 * 3 + i ∨ y ≠ y / 3 * 3 + j) ∧
            sodoku_node_value g (x / 3 * 3 + i) (y / 3 * 3 + j) = k + 49))) := by
    intro i a ha
    exact foldl_mark (fun a j =>
      sodoku_add_relationship_mapping g x y (x / 3 * 3 + i) (y / 3 * 3 + j) a)
      (fun j => (x ≠ x / 3 * 3 + i ∨ y ≠ y / 3 * 3 + j) ∧
            sodoku_node_value g (x / 3 * 3 + i) (y / 3 * 3 + j) = k + 49) k 9
      (fun a j => add_mapping_length _ _ _ _ _ _)
      (fun a j ha => add_mapping_getD _ _ _ _ _ _ _ (by omega)) (List.range 3) a ha
  have box := foldl_mark (fun a i => (List.range 3).foldl (fun a j =>
      sodoku_add_relationship_mapping g x y (x / 3 * 3 + i) (y / 3 * 3 + j) a) a)
      (fun i => ∃ j, j ∈ List.range 3 ∧
          ((x ≠ x / 3 * 3 + i ∨ y ≠ y / 3 * 3 + j) ∧
            sodoku_node_value g (x / 3 * 3 + i) (y / 3 * 3 + j) = k + 49)) k 9
      (fun a i => by
        apply foldl_range_inv (fun _ (t : List Nat) => t.length = a.length)
        · rfl
        · intro j t _ ht; rw [add_mapping_length]; exact ht)
      (fun a i ha => (inner i a ha).2) (List.range 3) _ row.1
  rw [box.2, row.2]
  have z : ¬ ((List.replicate 9 0).getD k 0 ≠ 0) := by
    interval_cases k <;> decide
  unfold peer_holds peer same_block
  constructor
  · rintro ((h | ⟨i, hi, h⟩) | ⟨i, hi, j, hj, h⟩)
    · exact absurd h z
    · rw [List.mem_range] at hi
      rcases h with ⟨h1, h2⟩ | ⟨h1, h2⟩
      · exact ⟨x, hx, i, hi, ⟨by omega, Or.inl rfl⟩, h2⟩
      · exact ⟨i, hi, y, hy, ⟨by omega, Or.inr (Or.inl rfl)⟩, h2⟩
    · rw [List.mem_range] at hi hj
      refine ⟨x / 3 * 3 + i, by omega, y / 3 * 3 + j, by omega, ⟨by omega, ?_⟩, h.2⟩
      right; right
      constructor <;> omega
  · rintro ⟨i, hi, j, hj, ⟨h1, h2⟩, h3⟩
    rcases h2 with h2 | h2 | ⟨h2, h2'⟩
    · subst h2
      left; right
      exact ⟨j, List.mem_range.2 hj, Or.inl ⟨by omega, h3⟩⟩
    · subst h2
      left; right
      exact ⟨i, List.mem_range.2 hi, Or.inr ⟨by omega, h3⟩⟩
    · right
      refine ⟨i - x / 3 * 3, List.mem_range.2 (by omega), j - y / 3 * 3,
        List.mem_range.2 (by omega), ?_, ?_⟩
      · have e1 : x / 3 * 3 + (i - x / 3 * 3) = i := by omega
        have e2 : y / 3 * 3 + (j - y / 3 * 3) = j := by omega
        rw [e1, e2]; omega
      · have e1 : x / 3 * 3 + (i - x / 3 * 3) = i := by omega
        have e2 : y / 3 * 3 + (j - y / 3 * 3) = j := by omega
        rw [e1, e2]; exact h3


/-! ## `sodoku_set` -/

theorem node_value_set (g : graph_t) (x y i j v : Nat) (col : Int) (hy : y < 9)
    (hj : j < 9) (h : i ≠ x ∨ j ≠ y) :
    sodoku_node_value ⟨g.nodes.set (x * 9 + y) v, col⟩ i j = sodoku_node_value g i j := by
  unfold sodoku_node_value
  exact getD_set_ne _ _ _ _ (by omega)

theorem peer_holds_set (g : graph_t) (x y v c : Nat) (col : Int) (hy : y < 9) :
    peer_holds ⟨g.nodes.set (x * 9 + y) v, col⟩ x y c ↔ peer_holds g x y c := by
  unfold peer_holds
  constructor
  · rintro ⟨i, hi, j, hj, hp, hv⟩
    exact ⟨i, hi, j, hj, hp, by rw [← hv, node_value_set g x y i j v col hy hj hp.1]⟩
  · rintro ⟨i, hi, j, hj, hp, hv⟩
    exact ⟨i, hi, j, hj, hp, by rw [← hv, node_value_set g x y i j v col hy hj hp.1]⟩

theorem interferes_spec (g : graph_t) (x y k : Nat) (hx : x < 9) (hy : y < 9) (hk : k < 9)
    (hv : sodoku_node_value g x y = k + 49) :
    sodoku_interferes g x y ≠ 0 ↔ peer_holds g x y (k + 49) := by
  unfold sodoku_interferes
  simp only []
  rw [hv, if_pos (by omega)]
  unfold adj_read
  have e : ((k + 49 : Nat) : Int) - 48 - 1 = (k : Int) := by omega
  rw [e, if_pos (by omega), ← fetch_adj_spec g x y k hx hy hk]
  simp

/-- Colouring an uncoloured vertex: rejected exactly when a peer holds the colour. -/
theorem set_digit_on_empty (g : graph_t) (x y k : Nat) (hx : x < 9) (hy : y < 9) (hk : k < 9)
    (hlen : g.nodes.length = 81) (he : sodoku_node_value g x y = 45) :
    sodoku_set g x y (k + 49) =
      if peer_holds g x y (k + 49) then (0, g)
      else (1, ⟨g.nodes.set (x * 9 + y) (k + 49), g.colored + 1⟩) := by
  unfold sodoku_node_value at he
  unfold sodoku_set
  simp only []
  rw [if_neg (by omega), if_pos ⟨by omega, he⟩]
  have hi := interferes_spec ⟨g.nodes.set (x * 9 + y) (k + 49), g.colored⟩ x y k hx hy hk
    (by unfold sodoku_node_value; exact getD_set_self _ _ _ (by omega))
  rw [peer_holds_set g x y (k + 49) (k + 49) g.colored hy] at hi
  by_cases hp : peer_holds g x y (k + 49)
  · rw [if_pos (hi.2 hp), if_pos hp, List.set_set, he]
    have : g.nodes.set (x * 9 + y) 45 = g.nodes := by
      rw [← he]; exact set_getD_self _ _
    rw [this]
  · rw [if_neg (fun h => hp (hi.1 h)), if_neg hp]

/-- A digit written over a digit: the cell is overwritten, nothing is checked. -/
theorem set_digit_on_digit (g : graph_t) (x y c : Nat) (hc : c ≠ 45)
    (ho : sodoku_node_value g x y ≠ 45) :
    sodoku_set g x y c = (0, ⟨g.nodes.set (x * 9 + y) c, g.colored⟩) := by
  unfold sodoku_node_value at ho
  unfold sodoku_set
  simp only []
  rw [if_neg (fun h => hc h.1), if_neg (fun h => ho h.2)]

/-- Uncolouring a coloured vertex. -/
theorem set_empty_on_digit (g : graph_t) (x y : Nat) (ho : sodoku_node_value g x y ≠ 45) :
    sodoku_set g x y 45 = (0, ⟨g.nodes.set (x * 9 + y) 45, g.colored - 1⟩) := by
  unfold sodoku_node_value at ho
  unfold sodoku_set
  simp only []
  rw [if_pos ⟨trivial, ho⟩]

/-- Uncolouring an uncoloured vertex changes nothing. -/
theorem set_empty_on_empty (g : graph_t) (x y : Nat) (ho : sodoku_node_value g x y = 45) :
    sodoku_set g x y 45 = (0, g) := by
  unfold sodoku_node_value at ho
  unfold sodoku_set
  simp only []
  rw [if_neg (fun h => h.2 ho), if_neg (fun h => h.1 (by simp))]
  have : g.nodes.set (x * 9 + y) 45 = g.nodes := by
    rw [← ho]; exact set_getD_self _ _
  rw [this]


/-! ## The colour sets of `sodoku_quick_color` -/

theorem colors_put_length (cs : List sodoku_set_member) (i j : Nat) (m : sodoku_set_member) :
    (colors_put cs i j m).length = cs.length := by
  unfold colors_put; simp

theorem colors_get_put (cs : List sodoku_set_member) (i j b k : Nat) (m : sodoku_set_member)
    (hlen : cs.length = 81) (hi : i < 9) (hj : j < 9) (hk : k < 9) :
    colors_get (colors_put cs i j m) b k
      = if i = b ∧ j = k then m else colors_get cs b k := by
  unfold colors_get colors_put
  simp only [List.getD_eq_getElem?_getD, List.getElem?_set]
  by_cases h : i = b ∧ j = k
  · obtain ⟨rfl, rfl⟩ := h
    have : i * 9 + j < cs.length := by omega
    simp [this]
  · have : i * 9 + j ≠ b * 9 + k := by omega
    simp [h, this]

theorem reset_spec (cs : List sodoku_set_member) (hlen : cs.length = 81) :
    (quick_color_reset cs).length = 81 ∧
      ∀ b, b < 9 → ∀ k, k < 9 → (colors_get (quick_color_reset cs) b k).count = 0 := by
  unfold quick_color_reset
  have h := foldl_range2_inv
    (fun n (t : List sodoku_set_member) => t.length = 81 ∧
      ∀ b, b < 9 → ∀ k, k < 9 → b * 9 + k < n → (colors_get t b k).count = 0)
    (fun t i j => colors_put t i j { colors_get t i j with count := 0 }) 9 9 cs
    ⟨hlen, fun b _ k _ h => absurd h (by omega)⟩
    (by
      intro i j t hi hj ht
      refine ⟨by rw [colors_put_length]; exact ht.1, ?_⟩
      intro b hb k hk hlt
      rw [colors_get_put t i j b k _ ht.1 hi hj hk]
      by_cases e : i = b ∧ j = k
      · rw [if_pos e]
      · rw [if_neg e]
        exact ht.2 b hb k hk (by omega))
  exact ⟨h.1, fun b hb k hk => h.2 b hb k hk (by omega)⟩

/-- The innermost loop of the second loop nest, for one uncoloured vertex. -/
theorem build_cell_spec (adj : List Nat) (i j : Nat) (hi : i < 9) (hj : j < 9)
    (cs : List sodoku_set_member) (hlen : cs.length = 81) :
    ((List.range 9).foldl (fun cs k =>
          if adj.getD k 0 = 0 then
            colors_put cs (i / 3 * 3 + j / 3) k
              ⟨i, j, (colors_get cs (i / 3 * 3 + j / 3) k).count + 1⟩
          else cs) cs).length = 81 ∧
    ∀ b, b < 9 → ∀ k, k < 9 →
      colors_get ((List.range 9).foldl (fun cs k =>
          if adj.getD k 0 = 0 then
            colors_put cs (i / 3 * 3 + j / 3) k
              ⟨i, j, (colors_get cs (i / 3 * 3 + j / 3) k).count + 1⟩
          else cs) cs) b k
        = if i / 3 * 3 + j / 3 = b ∧ adj.getD k 0 = 0 then
            ⟨i, j, (colors_get cs b k).count + 1⟩
          else colors_get cs b k := by
  have h := foldl_range_inv
    (fun n (t : List sodoku_set_member) => t.length = 81 ∧
      ∀ b, b < 9 → ∀ k, k < 9 →
        colors_get t b k = if k < n ∧ i / 3 * 3 + j / 3 = b ∧ adj.getD k 0 = 0 then
            ⟨i, j, (colors_get cs b k).count + 1⟩
          else colors_get cs b k)
    (fun cs k =>
          if adj.getD k 0 = 0 then
            colors_put cs (i / 3 * 3 + j / 3) k
              ⟨i, j, (colors_get cs (i / 3 * 3 + j / 3) k).count + 1⟩
          else cs) 9 cs
    ⟨hlen, fun b _ k _ => by rw [if_neg (by omega)]⟩
    (by
      intro n t hn ht
      dsimp only
      by_cases ha : adj.getD n 0 = 0
      · rw [if_pos ha]
        refine ⟨by rw [colors_put_length]; exact ht.1, ?_⟩
        intro b hb k hk
        rw [colors_get_put t _ n b k _ ht.1 (by omega) hn hk]
        by_cases e : i / 3 * 3 + j / 3 = b ∧ n = k
        · obtain ⟨e1, rfl⟩ := e
          rw [if_pos ⟨e1, rfl⟩, if_pos ⟨by omega, e1, ha⟩, ht.2 _ (by omega) n hn,
            if_neg (by omega), e1]
        · rw [if_neg e, ht.2 b hb k hk]
          by_cases c1 : k < n ∧ i / 3 * 3 + j / 3 = b ∧ adj.getD k 0 = 0
          · rw [if_pos c1, if_pos ⟨by omega, c1.2⟩]
          · rw [if_neg c1, if_neg]
            rintro ⟨c2, c3, c4⟩
            have : k = n := by
              by_contra hne
              exact c1 ⟨by omega, c3, c4⟩
            exact e ⟨c3, this.symm⟩
      · rw [if_neg ha]
        refine ⟨ht.1, ?_⟩
        intro b hb k hk
        rw [ht.2 b hb k hk]
        by_cases c1 : k < n ∧ i / 3 * 3 + j / 3 = b ∧ adj.getD k 0 = 0
        · rw [if_pos c1, if_pos ⟨by omega, c1.2⟩]
        · rw [if_neg c1, if_neg]
          rintro ⟨c2, c3, c4⟩
          have : k = n := by
            by_contra hne
            exact c1 ⟨by omega, c3, c4⟩
          rw [this] at c4
          exact ha c4)
  refine ⟨h.1, ?_⟩
  intro b hb k hk
  rw [h.2 b hb k hk]
  by_cases c : i / 3 * 3 + j / 3 = b ∧ adj.getD k 0 = 0
  · rw [if_pos c, if_pos ⟨hk, c⟩]
  · rw [if_neg c, if_neg (fun h => c h.2)]


theorem legal_iff (g : graph_t) (i j k : Nat) (hi : i < 9) (hj : j < 9) (hk : k < 9) :
    (sodoku_fetch_adj_values g i j (List.replicate 9 0)).getD k 0 = 0 ↔
      ¬ peer_holds g i j (k + 49) := by
  rw [← fetch_adj_spec g i j k hi hj hk]
  simp

/-- The second loop nest of a pass, started from counts that are all 0. -/
theorem build_spec (g : graph_t) (cs : List sodoku_set_member) (hlen : cs.length = 81)
    (hz : ∀ b, b < 9 → ∀ k, k < 9 → (colors_get cs b k).count = 0) :
    build_ok g (quick_color_build g cs) := by
  unfold quick_color_build
  have h := foldl_range2_inv
    (fun n (t : List sodoku_set_member) => t.length = 81 ∧
      ∀ b, b < 9 → ∀ k, k < 9 →
        0 ≤ (colors_get t b k).count ∧
        ((colors_get t b k).count = 0 → ∀ i, i < 9 → ∀ j, j < 9 → i * 9 + j < n →
          ¬ supports g b k i j) ∧
        (1 ≤ (colors_get t b k).count →
          (colors_get t b k).x < 9 ∧ (colors_get t b k).y < 9 ∧
            supports g b k (colors_get t b k).x (colors_get t b k).y) ∧
        ((colors_get t b k).count = 1 → ∀ i, i < 9 → ∀ j, j < 9 → i * 9 + j < n →
          supports g b k i j → i = (colors_get t b k).x ∧ j = (colors_get t b k).y))
    (fun cs i j =>
      let base_x := i / 3
      let base_y := j / 3
      if g.nodes.getD (i * 9 + j) 0 = 45 then
        let adj := sodoku_fetch_adj_values g i j (List.replicate 9 0)
        (List.range 9).foldl (fun cs k =>
          if adj.getD k 0 = 0 then
            colors_put cs (base_x * 3 + base_y) k
              ⟨i, j, (colors_get cs (base_x * 3 + base_y) k).count + 1⟩
          else cs) cs
      else cs) 9 9 cs
    ⟨hlen, fun b hb k hk => ⟨by rw [hz b hb k hk], fun _ i _ j _ h => absurd h (by omega),
      fun h => by rw [hz b hb k hk] at h; omega, fun h => by rw [hz b hb k hk] at h; omega⟩⟩
    (by
      intro i j t hi hj ht
      dsimp only
      have hsplit : ∀ i2, i2 < 9 → ∀ j2, j2 < 9 → i2 * 9 + j2 < i * 9 + j + 1 →
          i2 * 9 + j2 < i * 9 + j ∨ (i2 = i ∧ j2 = j) := by
        intro i2 _ j2 _ h; omega
      by_cases he : g.nodes.getD (i * 9 + j) 0 = 45
      · rw [if_pos he]
        have hc := build_cell_spec (sodoku_fetch_adj_values g i j (List.replicate 9 0)) i j hi hj
          t ht.1
        refine ⟨hc.1, ?_⟩
        intro b hb k hk
        rw [hc.2 b hb k hk]
        obtain ⟨t0, t1, t2, t3⟩ := ht.2 b hb k hk
        have hsup : supports g b k i j ↔ (i / 3 * 3 + j / 3 = b ∧
            (sodoku_fetch_adj_values g i j (List.replicate 9 0)).getD k 0 = 0) := by
          unfold supports
          rw [legal_iff g i j k hi hj hk]
          unfold sodoku_node_value
          constructor
          · rintro ⟨a, _, c⟩; exact ⟨a, c⟩
          · rintro ⟨a, c⟩; exact ⟨a, he, c⟩
        by_cases hu : i / 3 * 3 + j / 3 = b ∧
            (sodoku_fetch_adj_values g i j (List.replicate 9 0)).getD k 0 = 0
        · rw [if_pos hu]
          dsimp only
          refine ⟨by omega, fun h => by omega, fun _ => ⟨hi, hj, hsup.2 hu⟩, ?_⟩
          intro h1 i2 hi2 j2 hj2 hlt hs
          rcases hsplit i2 hi2 j2 hj2 hlt with h | h
          · exact absurd hs (t1 (by omega) i2 hi2 j2 hj2 h)
          · exact h
        · rw [if_neg hu]
          refine ⟨t0, ?_, t2, ?_⟩
          · intro h1 i2 hi2 j2 hj2 hlt
            rcases hsplit i2 hi2 j2 hj2 hlt with h | ⟨rfl, rfl⟩
            · exact t1 h1 i2 hi2 j2 hj2 h
            · exact fun hs => hu (hsup.1 hs)
          · intro h1 i2 hi2 j2 hj2 hlt hs
            rcases hsplit i2 hi2 j2 hj2 hlt with h | ⟨rfl, rfl⟩
            · exact t3 h1 i2 hi2 j2 hj2 h hs
            · exact absurd (hsup.1 hs) hu
      · rw [if_neg he]
        refine ⟨ht.1, ?_⟩
        intro b hb k hk
        obtain ⟨t0, t1, t2, t3⟩ := ht.2 b hb k hk
        have hns : ¬ supports g b k i j := by
          unfold supports sodoku_node_value
          rintro ⟨_, a, _⟩; exact he a
        refine ⟨t0, ?_, t2, ?_⟩
        · intro h1 i2 hi2 j2 hj2 hlt
          rcases hsplit i2 hi2 j2 hj2 hlt with h | ⟨rfl, rfl⟩
          · exact t1 h1 i2 hi2 j2 hj2 h
          · exact hns
        · intro h1 i2 hi2 j2 hj2 hlt hs
          rcases hsplit i2 hi2 j2 hj2 hlt with h | ⟨rfl, rfl⟩
          · exact t3 h1 i2 hi2 j2 hj2 h hs
          · exact absurd hs hns)
  refine ⟨h.1, ?_⟩
  intro b hb k hk
  obtain ⟨_, _, t2, t3⟩ := h.2 b hb k hk
  exact ⟨t2, fun h1 i hi j hj hs => t3 h1 i hi j hj (by omega) hs⟩

theorem pass_build_ok (g : graph_t) (cs : List sodoku_set_member) (hlen : cs.length = 81) :
    build_ok g (quick_color_build g (quick_color_reset cs)) :=
  build_spec g _ (reset_spec cs hlen).1 (reset_spec cs hlen).2


/-! ## Updating one cell -/

theorem node_upd (g : graph_t) (x y i j v : Nat) (col : Int) (hlen : g.nodes.length = 81)
    (hx : x < 9) (hy : y < 9) (hj : j < 9) :
    sodoku_node_value ⟨g.nodes.set (x * 9 + y) v, col⟩ i j
      = if i = x ∧ j = y then v else sodoku_node_value g i j := by
  unfold sodoku_node_value
  rw [getD_set]
  by_cases h : i = x ∧ j = y
  · obtain ⟨rfl, rfl⟩ := h
    rw [if_pos ⟨rfl, by omega⟩, if_pos ⟨rfl, rfl⟩]
  · rw [if_neg (fun h2 => h (by omega)), if_neg h]

theorem node_upd_self (g : graph_t) (x y v : Nat) (col : Int) (hlen : g.nodes.length = 81)
    (hx : x < 9) (hy : y < 9) :
    sodoku_node_value ⟨g.nodes.set (x * 9 + y) v, col⟩ x y = v := by
  rw [node_upd g x y x y v col hlen hx hy hy, if_pos ⟨rfl, rfl⟩]

theorem node_upd_other (g : graph_t) (x y i j v : Nat) (col : Int) (hlen : g.nodes.length = 81)
    (hx : x < 9) (hy : y < 9) (hj : j < 9) (h : i ≠ x ∨ j ≠ y) :
    sodoku_node_value ⟨g.nodes.set (x * 9 + y) v, col⟩ i j = sodoku_node_value g i j := by
  rw [node_upd g x y i j v col hlen hx hy hj, if_neg (fun h2 => by omega)]

theorem shape_upd (g : graph_t) (n v : Nat) (col : Int) (hs : grid_shape g) (hv : cell_ok v) :
    grid_shape ⟨g.nodes.set n v, col⟩ := by
  refine ⟨by simpa using hs.1, ?_⟩
  intro c hc
  rcases List.mem_or_eq_of_mem_set hc with h | h
  · exact hs.2 c h
  · rw [h]; exact hv

theorem cell_ok_digit (k : Nat) (hk : k < 9) : cell_ok (k + 49) := by
  unfold cell_ok; omega

theorem node_cell_ok (g : graph_t) (hs : grid_shape g) (x y : Nat) (hx : x < 9) (hy : y < 9) :
    cell_ok (sodoku_node_value g x y) := by
  unfold sodoku_node_value
  exact hs.2 _ (getD_mem _ _ (by rw [hs.1]; omega))

theorem peer_symm (x y i j : Nat) (h : peer x y i j) : peer i j x y := by
  unfold peer same_block at *
  omega

theorem peer_holds_keeps (g h : graph_t) (hk : keeps g h) (x y c : Nat) (hc : c ≠ 45)
    (hp : peer_holds g x y c) : peer_holds h x y c := by
  obtain ⟨i, hi, j, hj, hpe, hv⟩ := hp
  exact ⟨i, hi, j, hj, hpe, by rw [hk i hi j hj (by rw [hv]; exact hc), hv]⟩

theorem keeps_refl (g : graph_t) : keeps g g := fun _ _ _ _ _ => rfl

theorem keeps_trans (g h k : graph_t) (h1 : keeps g h) (h2 : keeps h k) : keeps g k := by
  intro x hx y hy hne
  have e1 := h1 x hx y hy hne
  rw [h2 x hx y hy (by rw [e1]; exact hne), e1]

theorem keeps_upd (g0 g : graph_t) (x y v : Nat) (col : Int) (hlen : g.nodes.length = 81)
    (hx : x < 9) (hy : y < 9) (hk : keeps g0 g) (he : sodoku_node_value g0 x y = 45) :
    keeps g0 ⟨g.nodes.set (x * 9 + y) v, col⟩ := by
  intro i hi j hj hne
  rw [node_upd_other g x y i j v col hlen hx hy hj, hk i hi j hj hne]
  by_contra hc
  have : i = x ∧ j = y := by omega
  rw [this.1, this.2] at hne
  exact hne he

theorem colored_inv_upd_new (g : graph_t) (x y v : Nat) (hlen : g.nodes.length = 81)
    (hx : x < 9) (hy : y < 9) (hc : colored_inv g) (he : sodoku_node_value g x y = 45)
    (hv : v ≠ 45) :
    colored_inv ⟨g.nodes.set (x * 9 + y) v, g.colored + 1⟩ ∧
      filled (g.nodes.set (x * 9 + y) v) = filled g.nodes + 1 := by
  unfold sodoku_node_value at he
  have h := filled_set g.nodes (x * 9 + y) v (by omega)
  rw [if_pos he, if_neg hv] at h
  unfold colored_inv at *
  simp only []
  constructor
  · rw [hc]; omega
  · omega

theorem colored_inv_upd_over (g : graph_t) (x y v : Nat) (hlen : g.nodes.length = 81)
    (hx : x < 9) (hy : y < 9) (hc : colored_inv g) (he : sodoku_node_value g x y ≠ 45)
    (hv : v ≠ 45) :
    colored_inv ⟨g.nodes.set (x * 9 + y) v, g.colored⟩ ∧
      filled (g.nodes.set (x * 9 + y) v) = filled g.nodes := by
  unfold sodoku_node_value at he
  have h := filled_set g.nodes (x * 9 + y) v (by omega)
  rw [if_neg he, if_neg hv] at h
  unfold colored_inv at *
  simp only []
  constructor
  · rw [hc]; omega
  · omega

theorem colored_inv_upd_clear (g : graph_t) (x y : Nat) (hlen : g.nodes.length = 81)
    (hx : x < 9) (hy : y < 9) (hc : colored_inv g) (he : sodoku_node_value g x y ≠ 45) :
    colored_inv ⟨g.nodes.set (x * 9 + y) 45, g.colored - 1⟩ ∧
      filled (g.nodes.set (x * 9 + y) 45) + 1 = filled g.nodes := by
  unfold sodoku_node_value at he
  have h := filled_set g.nodes (x * 9 + y) 45 (by omega)
  rw [if_neg he, if_pos rfl] at h
  unfold colored_inv at *
  simp only []
  constructor
  · rw [hc]; omega
  · omega

/-- A checked colouring keeps the grid conflict free. -/
theorem no_conflict_upd (g : graph_t) (x y v : Nat) (col : Int) (hlen : g.nodes.length = 81)
    (hx : x < 9) (hy : y < 9) (hn : no_conflict g) (hp : ¬ peer_holds g x y v) :
    no_conflict ⟨g.nodes.set (x * 9 + y) v, col⟩ := by
  intro a ha b hb hne
  rintro ⟨i, hi, j, hj, hpe, hv⟩
  by_cases h1 : a = x ∧ b = y
  · obtain ⟨rfl, rfl⟩ := h1
    rw [node_upd_self g a b v col hlen hx hy] at hv
    rw [node_upd_other g a b i j v col hlen hx hy hj hpe.1] at hv
    exact hp ⟨i, hi, j, hj, hpe, hv⟩
  · have h1' : a ≠ x ∨ b ≠ y := by omega
    rw [node_upd_other g x y a b v col hlen hx hy hb h1'] at hv hne
    by_cases h2 : i = x ∧ j = y
    · obtain ⟨rfl, rfl⟩ := h2
      rw [node_upd_self g i j v col hlen hx hy] at hv
      exact hp ⟨a, ha, b, hb, peer_symm _ _ _ _ hpe, hv.symm⟩
    · have h2' : i ≠ x ∨ j ≠ y := by omega
      rw [node_upd_other g x y i j v col hlen hx hy hj h2'] at hv
      exact hn a ha b hb hne ⟨i, hi, j, hj, hpe, hv⟩

/-- A colour that no cell of the block holds may be written into the block. -/
theorem block_distinct_upd (g : graph_t) (x y v : Nat) (col : Int) (hlen : g.nodes.length = 81)
    (hx : x < 9) (hy : y < 9) (hn : block_distinct g)
    (hp : ∀ i, i < 9 → ∀ j, j < 9 → same_block x y i j → (i ≠ x ∨ j ≠ y) →
      sodoku_node_value g i j ≠ v) :
    block_distinct ⟨g.nodes.set (x * 9 + y) v, col⟩ := by
  intro a ha b hb i hi j hj hsb hd hne
  by_cases h1 : a = x ∧ b = y
  · obtain ⟨rfl, rfl⟩ := h1
    rw [node_upd_self g a b v col hlen hx hy]
    rw [node_upd_other g a b i j v col hlen hx hy hj hd]
    exact hp i hi j hj hsb hd
  · have h1' : a ≠ x ∨ b ≠ y := by omega
    rw [node_upd_other g x y a b v col hlen hx hy hb h1'] at hne ⊢
    by_cases h2 : i = x ∧ j = y
    · obtain ⟨rfl, rfl⟩ := h2
      rw [node_upd_self g i j v col hlen hx hy]
      have hsb' : same_block i j a b := by
        unfold same_block at *; omega
      exact fun e => hp a ha b hb hsb' h1' e.symm
    · have h2' : i ≠ x ∨ j ≠ y := by omega
      rw [node_upd_other g x y i j v col hlen hx hy hj h2']
      exact hn a ha b hb i hi j hj hsb hd hne


/-! ## The third loop nest of a pass -/

theorem placed_mono (T : List sodoku_set_member) (n m : Nat) (g : graph_t) (x y : Nat)
    (h : placed T n g x y) (hnm : n ≤ m) : placed T m g x y := by
  obtain ⟨b, hb, k, hk, hlt, r⟩ := h
  exact ⟨b, hb, k, hk, by omega, r⟩

theorem lost_mono (T : List sodoku_set_member) (n m : Nat) (g : graph_t)
    (h : lost T n g) (hnm : n ≤ m) : lost T m g := by
  obtain ⟨b, hb, k, hk, hlt, r⟩ := h
  exact ⟨b, hb, k, hk, by omega, r⟩

theorem placed_upd (T : List sodoku_set_member) (g0 g : graph_t) (i j v : Nat) (col : Int)
    (hlen : g.nodes.length = 81) (hi : i < 9) (hj : j < 9)
    (hx : (colors_get T i j).x < 9) (hy : (colors_get T i j).y < 9)
    (hc : (colors_get T i j).count = 1) (hv : v = j + 49)
    (hp : ∀ x, x < 9 → ∀ y, y < 9 → sodoku_node_value g0 x y = 45 →
      sodoku_node_value g x y ≠ 45 → placed T (i * 9 + j) g x y) :
    ∀ x, x < 9 → ∀ y, y < 9 → sodoku_node_value g0 x y = 45 →
      sodoku_node_value
        ⟨g.nodes.set ((colors_get T i j).x * 9 + (colors_get T i j).y) v, col⟩ x y ≠ 45 →
      placed T (i * 9 + j + 1)
        ⟨g.nodes.set ((colors_get T i j).x * 9 + (colors_get T i j).y) v, col⟩ x y := by
  intro x hx' y hy' h0 hne
  by_cases e : x = (colors_get T i j).x ∧ y = (colors_get T i j).y
  · refine ⟨i, hi, j, hj, by omega, hc, e.1.symm, e.2.symm, ?_⟩
    rw [e.1, e.2, node_upd_self g _ _ v col hlen hx hy, hv]
  · have e' : x ≠ (colors_get T i j).x ∨ y ≠ (colors_get T i j).y := by omega
    rw [node_upd_other g _ _ x y v col hlen hx hy hy' e'] at hne
    obtain ⟨b, hb, k, hk, hlt, r1, r2, r3, r4⟩ := hp x hx' y hy' h0 hne
    refine ⟨b, hb, k, hk, by omega, r1, r2, r3, ?_⟩
    rw [node_upd_other g _ _ x y v col hlen hx hy hy' e']
    exact r4

/-- Two singleton sets that name the same vertex belong to the same block. -/
theorem entry_block (g0 : graph_t) (T : List sodoku_set_member) (hb : build_ok g0 T)
    (b k i j : Nat) (hb' : b < 9) (hk : k < 9) (hi : i < 9) (hj : j < 9)
    (h1 : (colors_get T b k).count = 1) (h2 : (colors_get T i j).count = 1)
    (hx : (colors_get T b k).x = (colors_get T i j).x)
    (hy : (colors_get T b k).y = (colors_get T i j).y) : b = i := by
  have s1 := ((hb.2 b hb' k hk).1 (by omega)).2.2.1
  have s2 := ((hb.2 i hi j hj).1 (by omega)).2.2.1
  rw [hx, hy] at s1
  omega

/-- No cell of the block holds the colour of a singleton set that is still
to be applied. -/
theorem fresh_in_block (g0 g : graph_t) (T : List sodoku_set_member) (hb : build_ok g0 T)
    (i j : Nat) (hi : i < 9) (hj : j < 9) (hc : (colors_get T i j).count = 1)
    (hk : keeps g0 g)
    (hp : ∀ x, x < 9 → ∀ y, y < 9 → sodoku_node_value g0 x y = 45 →
      sodoku_node_value g x y ≠ 45 → placed T (i * 9 + j) g x y)
    (p q : Nat) (hp' : p < 9) (hq : q < 9)
    (hsb : same_block (colors_get T i j).x (colors_get T i j).y p q)
    (hd : p ≠ (colors_get T i j).x ∨ q ≠ (colors_get T i j).y) :
    sodoku_node_value g p q ≠ j + 49 := by
  obtain ⟨hx, hy, hblk, hemp, hnp⟩ := (hb.2 i hi j hj).1 (by omega)
  by_cases h0 : sodoku_node_value g0 p q = 45
  · by_cases h1 : sodoku_node_value g p q = 45
    · omega
    · obtain ⟨b, hb', k, hk', hlt, r1, r2, r3, r4⟩ := hp p hp' q hq h0 h1
      intro e
      have ekj : k = j := by omega
      have hblk2 := ((hb.2 b hb' k hk').1 (by omega)).2.2.1
      rw [r2, r3] at hblk2
      unfold same_block at hsb
      have : b = i := by omega
      omega
  · rw [hk p hp' q hq h0]
    intro e
    exact hnp ⟨p, hp', q, hq, ⟨hd, Or.inr (Or.inr hsb)⟩, e⟩

theorem apply_step (g0 : graph_t) (T : List sodoku_set_member) (hb : build_ok g0 T)
    (i j : Nat) (hi : i < 9) (hj : j < 9) (st : graph_t × Int)
    (h : apply_inv g0 T (i * 9 + j) st) :
    apply_inv g0 T (i * 9 + j + 1)
      (if (colors_get T i j).count = 1 then
        ((sodoku_set st.1 (colors_get T i j).x (colors_get T i j).y (j + 1 + 48)).2,
          (sodoku_set st.1 (colors_get T i j).x (colors_get T i j).y (j + 1 + 48)).2.colored)
      else st) := by
  obtain ⟨g, rtn⟩ := st
  obtain ⟨a0, a0', a1, a2, a3, a5, a6⟩ := h
  dsimp only at a0 a0' a1 a2 a3 a5 a6
  have e49 : j + 1 + 48 = j + 49 := by omega
  rw [e49]
  by_cases hc : (colors_get T i j).count = 1
  · rw [if_pos hc]
    obtain ⟨hx, hy, hblk, hemp, hnp⟩ := (hb.2 i hi j hj).1 (by omega)
    have hfill : filled g0.nodes ≤ filled g.nodes := by
      rcases a3 with ⟨e, _, _⟩ | ⟨e, _⟩
      · rw [e]
      · omega
    by_cases he : sodoku_node_value g (colors_get T i j).x (colors_get T i j).y = 45
    · rw [set_digit_on_empty g _ _ j hx hy hj a0.1 he]
      by_cases hp : peer_holds g (colors_get T i j).x (colors_get T i j).y (j + 49)
      · -- rejected: the grid is as it was
        rw [if_pos hp]
        refine ⟨a0, a0', a1, fun x hx' y hy' h0 h1 => placed_mono _ _ _ _ _ _
          (a2 x hx' y hy' h0 h1) (by omega), ?_, a5, ?_⟩
        · right
          rcases a3 with ⟨e, _, _⟩ | ⟨e, _⟩
          · rw [e] at hp; exact absurd hp hnp
          · exact ⟨e, rfl⟩
        · intro h0
          rcases a6 h0 with h | h
          · exact Or.inl h
          · exact Or.inr (lost_mono _ _ _ _ h (by omega))
      · -- accepted
        rw [if_neg hp]
        have hci := colored_inv_upd_new g _ _ (j + 49) a0.1 hx hy a0' he (by omega)
        refine ⟨shape_upd g _ _ _ a0 (cell_ok_digit j hj), hci.1,
          keeps_upd g0 g _ _ _ _ a0.1 hx hy a1 hemp,
          placed_upd T g0 g i j _ _ a0.1 hi hj hx hy hc rfl a2, ?_, ?_, ?_⟩
        · right
          dsimp only
          exact ⟨by rw [hci.2]; omega, rfl⟩
        · intro h0
          apply block_distinct_upd g _ _ _ _ a0.1 hx hy (a5 h0)
          intro p hp' q hq hsb hd e
          exact hp ⟨p, hp', q, hq, ⟨hd, Or.inr (Or.inr hsb)⟩, e⟩
        · intro h0
          rcases a6 h0 with h | h
          · exact Or.inl (no_conflict_upd g _ _ _ _ a0.1 hx hy h hp)
          · right
            obtain ⟨b, hb', k, hk, hlt, r1, r2, r3⟩ := h
            refine ⟨b, hb', k, hk, by omega, r1, ?_⟩
            have hd : (colors_get T b k).x ≠ (colors_get T i j).x ∨
                (colors_get T b k).y ≠ (colors_get T i j).y := by
              by_contra hcon
              have : (colors_get T b k).x = (colors_get T i j).x ∧
                (colors_get T b k).y = (colors_get T i j).y := by omega
              rw [this.1, this.2] at r2
              exact r2 he
            have hyb := ((hb.2 b hb' k hk).1 (by omega)).2.1
            rw [node_upd_other g _ _ _ _ _ _ a0.1 hx hy hyb hd]
            exact ⟨r2, r3⟩
    · -- overwritten without a check
      rw [set_digit_on_digit g _ _ (j + 49) (by omega) he]
      have hci := colored_inv_upd_over g _ _ (j + 49) a0.1 hx hy a0' he (by omega)
      have hfresh := fresh_in_block g0 g T hb i j hi hj hc a1 a2
      refine ⟨shape_upd g _ _ _ a0 (cell_ok_digit j hj), hci.1,
        keeps_upd g0 g _ _ _ _ a0.1 hx hy a1 hemp,
        placed_upd T g0 g i j _ _ a0.1 hi hj hx hy hc rfl a2, ?_, ?_, ?_⟩
      · right
        dsimp only
        refine ⟨?_, rfl⟩
        rw [hci.2]
        rcases a3 with ⟨e, _, _⟩ | ⟨e, _⟩
        · rw [e] at he; exact absurd hemp he
        · exact e
      · intro h0
        exact block_distinct_upd g _ _ _ _ a0.1 hx hy (a5 h0)
          (fun p hp' q hq hsb hd => hfresh p q hp' hq hsb hd)
      · intro _
        right
        obtain ⟨b, hb', k, hk, hlt, r1, r2, r3, r4⟩ := a2 _ hx _ hy hemp he
        have hbi : b = i := entry_block g0 T hb b k i j hb' hk hi hj r1 hc r2 r3
        refine ⟨b, hb', k, hk, by omega, r1, ?_⟩
        rw [r2, r3, node_upd_self g _ _ _ _ a0.1 hx hy]
        constructor
        · omega
        · intro e
          have : k = j := by omega
          omega
  · rw [if_neg hc]
    refine ⟨a0, a0', a1, fun x hx' y hy' h0 h1 => placed_mono _ _ _ _ _ _
      (a2 x hx' y hy' h0 h1) (by omega), ?_, a5, ?_⟩
    · rcases a3 with ⟨e1, e2, e3⟩ | e
      · left
        refine ⟨e1, e2, ?_⟩
        intro b hb' k hk hlt
        by_cases hlt' : b * 9 + k < i * 9 + j
        · exact e3 b hb' k hk hlt'
        · have : b = i ∧ k = j := by omega
          rw [this.1, this.2]; exact hc
      · exact Or.inr e
    · intro h0
      rcases a6 h0 with h | h
      · exact Or.inl h
      · exact Or.inr (lost_mono _ _ _ _ h (by omega))


/-- A cell of the block that holds the colour of a singleton set is the
vertex of that set, and the set has been applied. -/
theorem holder_is_cand (g0 g : graph_t) (T : List sodoku_set_member) (hb : build_ok g0 T)
    (i j : Nat) (hi : i < 9) (hj : j < 9) (hc : (colors_get T i j).count = 1)
    (hk : keeps g0 g) (n : Nat)
    (hp : ∀ x, x < 9 → ∀ y, y < 9 → sodoku_node_value g0 x y = 45 →
      sodoku_node_value g x y ≠ 45 → placed T n g x y)
    (p q : Nat) (hp' : p < 9) (hq : q < 9) (hblk : p / 3 * 3 + q / 3 = i)
    (e : sodoku_node_value g p q = j + 49) :
    p = (colors_get T i j).x ∧ q = (colors_get T i j).y ∧ i * 9 + j < n := by
  obtain ⟨hx, hy, hblk', hemp, hnp⟩ := (hb.2 i hi j hj).1 (by omega)
  by_cases h0 : sodoku_node_value g0 p q = 45
  · obtain ⟨b, hb', k, hk', hlt, r1, r2, r3, r4⟩ := hp p hp' q hq h0 (by omega)
    have ekj : k = j := by omega
    have hblk2 := ((hb.2 b hb' k hk').1 (by omega)).2.2.1
    rw [r2, r3] at hblk2
    have ebi : b = i := by omega
    subst ekj; subst ebi
    exact ⟨r2.symm, r3.symm, hlt⟩
  · exfalso
    have e0 := hk p hp' q hq h0
    rw [e] at e0
    by_cases hd : p = (colors_get T i j).x ∧ q = (colors_get T i j).y
    · rw [hd.1, hd.2] at h0; exact h0 hemp
    · apply hnp
      refine ⟨p, hp', q, hq, ⟨by omega, Or.inr (Or.inr ?_)⟩, e0.symm⟩
      unfold same_block; omega

/-- A singleton set whose vertex ended with another colour shuts its colour
out of the block. -/
theorem lost_stuck (g0 g : graph_t) (T : List sodoku_set_member) (hb : build_ok g0 T)
    (hk : keeps g0 g) (n : Nat)
    (hp : ∀ x, x < 9 → ∀ y, y < 9 → sodoku_node_value g0 x y = 45 →
      sodoku_node_value g x y ≠ 45 → placed T n g x y)
    (hl : lost T n g) : stuck g := by
  obtain ⟨b, hb', k, hk', _, r1, r2, r3⟩ := hl
  obtain ⟨hx, hy, hblk, hemp, hnp⟩ := (hb.2 b hb' k hk').1 (by omega)
  refine ⟨b, hb', k, hk', ?_⟩
  intro p hp' q hq hpb
  constructor
  · intro e
    have := holder_is_cand g0 g T hb b k hb' hk' r1 hk n hp p q hp' hq hpb e
    rw [this.1, this.2.1] at e
    exact r3 e
  · intro he
    have h0 : sodoku_node_value g0 p q = 45 := by
      by_contra hne
      rw [hk p hp' q hq hne] at he
      exact hne he
    have hns : ¬ supports g0 b k p q := by
      intro hs
      have := (hb.2 b hb' k hk').2 r1 p hp' q hq hs
      rw [this.1, this.2] at he
      exact r2 he
    have hph : peer_holds g0 p q (k + 49) := by
      by_contra hn
      exact hns ⟨hpb, h0, hn⟩
    exact peer_holds_keeps g0 g hk p q _ (by omega) hph

/-- A colour that is shut out of a block stays shut out through a pass. -/
theorem stuck_pass (g0 g : graph_t) (T : List sodoku_set_member) (hb : build_ok g0 T)
    (hk : keeps g0 g) (n : Nat)
    (hp : ∀ x, x < 9 → ∀ y, y < 9 → sodoku_node_value g0 x y = 45 →
      sodoku_node_value g x y ≠ 45 → placed T n g x y)
    (hs : stuck g0) : stuck g := by
  obtain ⟨b, hb', k, hk', hso⟩ := hs
  refine ⟨b, hb', k, hk', ?_⟩
  intro p hp' q hq hpb
  obtain ⟨s1, s2⟩ := hso p hp' q hq hpb
  constructor
  · by_cases h0 : sodoku_node_value g0 p q = 45
    · by_cases h1 : sodoku_node_value g p q = 45
      · omega
      · obtain ⟨b2, hb2, k2, hk2, _, r1, r2, r3, r4⟩ := hp p hp' q hq h0 h1
        have hsup := ((hb.2 b2 hb2 k2 hk2).1 (by omega)).2.2
        rw [r2, r3] at hsup
        intro e
        rw [r4] at e
        have ek : k2 = k := by omega
        rw [ek] at hsup
        exact hsup.2.2 (s2 h0)
    · rw [hk p hp' q hq h0]; exact s1
  · intro he
    have h0 : sodoku_node_value g0 p q = 45 := by
      by_contra hne
      rw [hk p hp' q hq hne] at he
      exact hne he
    exact peer_holds_keeps g0 g hk p q _ (by omega) (s2 h0)

theorem apply_spec (g0 : graph_t) (T : List sodoku_set_member) (hb : build_ok g0 T)
    (hs : grid_shape g0) (hc : colored_inv g0) :
    apply_inv g0 T 81 (quick_color_apply T (g0, 0)) := by
  unfold quick_color_apply
  apply foldl_range2_inv (fun n st => apply_inv g0 T n st)
    (fun (st : graph_t × Int) i j =>
      if (colors_get T i j).count = 1 then
        let g := (sodoku_set st.1 (colors_get T i j).x (colors_get T i j).y
          (j + 1 + 48)).2
        (g, g.colored)
      else st) 9 9 (g0, 0)
  · refine ⟨hs, hc, keeps_refl g0, ?_, ?_, fun h => h, fun h => Or.inl h⟩
    · intro x _ y _ h0 h1; exact absurd h0 h1
    · left
      exact ⟨rfl, rfl, fun b _ k _ h => absurd h (by omega)⟩
  · intro i j t hi hj ht
    exact apply_step g0 T hb i j hi hj t ht

/-- One pass of the `do .. while` loop of `sodoku_quick_color`. -/
theorem pass_spec (g0 : graph_t) (cs : List sodoku_set_member) (hlen : cs.length = 81)
    (hs : grid_shape g0) (hc : colored_inv g0) :
    pass_post g0 (quick_color_pass g0 cs).1.1 (quick_color_pass g0 cs).1.2 ∧
      (quick_color_pass g0 cs).2.length = 81 := by
  have hb := pass_build_ok g0 cs hlen
  have ha := apply_spec g0 _ hb hs hc
  unfold quick_color_pass
  dsimp only
  generalize quick_color_apply (quick_color_build g0 (quick_color_reset cs)) (g0, 0) = st at ha
  obtain ⟨g, rtn⟩ := st
  obtain ⟨a0, a0', a1, a2, a3, a5, a6⟩ := ha
  dsimp only at a0 a0' a1 a2 a3 a5 a6 ⊢
  refine ⟨⟨a0, a0', a1, ?_, ?_⟩, hb.1⟩
  · rcases a3 with ⟨e1, e2, _⟩ | ⟨e1, e2⟩
    · exact Or.inl ⟨e2, e1⟩
    · right
      refine ⟨?_, e1⟩
      rw [e2, a0']
      omega
  · rintro ⟨b1, b2⟩
    refine ⟨a5 b1, ?_⟩
    rcases b2 with h | h
    · rcases a6 h with h2 | h2
      · exact Or.inl h2
      · exact Or.inr (lost_stuck g0 g _ hb a1 81 a2 h2)
    · exact Or.inr (stuck_pass g0 g _ hb a1 81 a2 h)


/-! ## The pass loop of `sodoku_quick_color` -/

theorem filled_le_81 (g : graph_t) (hs : grid_shape g) : filled g.nodes ≤ 81 := by
  have := filled_le_length g.nodes
  rw [hs.1] at this
  exact this

theorem quick_color_loop_spec (n : Nat) :
    ∀ (g : graph_t) (cs : List sodoku_set_member), grid_shape g → colored_inv g →
      cs.length = 81 → 81 < n + filled g.nodes →
      ∃ g2, quick_color_loop n g cs = some (0, g2) ∧ grid_shape g2 ∧ colored_inv g2 ∧
        keeps g g2 ∧ filled g.nodes ≤ filled g2.nodes ∧ (sound_inv g → sound_inv g2) := by
  induction n with
  | zero =>
    intro g cs hs _ _ hlt
    have := filled_le_81 g hs
    omega
  | succ n ih =>
    intro g cs hs hc hlen hlt
    obtain ⟨⟨p0, p0', p1, p2, p3⟩, plen⟩ := pass_spec g cs hlen hs hc
    unfold quick_color_loop
    dsimp only
    by_cases hr : (quick_color_pass g cs).1.2 ≠ 0
    · rw [if_pos hr]
      rcases p2 with ⟨e, _⟩ | ⟨_, hf⟩
      · exact absurd e hr
      · obtain ⟨g2, e, q0, q0', q1, q2, q3⟩ :=
          ih (quick_color_pass g cs).1.1 (quick_color_pass g cs).2 p0 p0' plen (by omega)
        exact ⟨g2, e, q0, q0', keeps_trans _ _ _ p1 q1, by omega, fun h => q3 (p3 h)⟩
    · rw [if_neg hr]
      have hr0 : (quick_color_pass g cs).1.2 = 0 := by
        by_contra h; exact hr h
      refine ⟨(quick_color_pass g cs).1.1, by rw [hr0], p0, p0', p1, ?_, p3⟩
      rcases p2 with ⟨_, e⟩ | ⟨_, hf⟩
      · rw [e]
      · omega

/-- `sodoku_quick_color` returns: 82 passes are enough, the value returned is
the 0 that ended the loop, coloured cells and the grid invariants are kept. -/
theorem quick_color_spec (g : graph_t) (hs : grid_shape g) (hc : colored_inv g) :
    ∃ g2, sodoku_quick_color g = some (0, g2) ∧ grid_shape g2 ∧ colored_inv g2 ∧
      keeps g g2 ∧ filled g.nodes ≤ filled g2.nodes ∧ (sound_inv g → sound_inv g2) := by
  unfold sodoku_quick_color
  exact quick_color_loop_spec 82 g _ hs hc (by simp) (by omega)

/-! ## The vertex selector -/

theorem fetch_next_spec (g : graph_t) (px py : Int) :
    ((sodoku_fetch_next_node g px py).1 = 0 ∧ (sodoku_fetch_next_node g px py).2.1 = px ∧
        (sodoku_fetch_next_node g px py).2.2 = py) ∨
    ((sodoku_fetch_next_node g px py).1 = 1 ∧ ∃ i : Nat, i < 9 ∧ ∃ j : Nat, j < 9 ∧
        (sodoku_fetch_next_node g px py).2.1 = (i : Int) ∧
        (sodoku_fetch_next_node g px py).2.2 = (j : Int) ∧
        sodoku_node_value g i j = 45 ∧ px * 9 + py < (i : Int) * 9 + j) := by
  unfold sodoku_fetch_next_node
  apply foldl_range2_inv
    (fun (_ : Nat) (st : Int × Int × Int) =>
      (st.1 = 0 ∧ st.2.1 = px ∧ st.2.2 = py) ∨
      (st.1 = 1 ∧ ∃ i : Nat, i < 9 ∧ ∃ j : Nat, j < 9 ∧ st.2.1 = (i : Int) ∧ st.2.2 = (j : Int) ∧
        sodoku_node_value g i j = 45 ∧ px * 9 + py < (i : Int) * 9 + j))
    (fun (st : Int × Int × Int) i j =>
      if sodoku_node_value g i j = 45 then
        let p := sodoku_count_adj g i j
        if ((i : Int) * 9 + j) > (st.2.1 * 9 + st.2.2) then
          if p > st.1 ∧ p ≠ 9 then (1, (i : Int), (j : Int)) else st
        else st
      else st) 9 9 (0, px, py)
  · exact Or.inl ⟨rfl, rfl, rfl⟩
  · intro i j st hi hj hst
    dsimp only
    split
    · rename_i he
      split
      · rename_i hgt
        split
        · right
          refine ⟨rfl, i, hi, j, hj, rfl, rfl, he, ?_⟩
          rcases hst with ⟨_, e1, e2⟩ | ⟨_, i2, _, j2, _, e1, e2, _, hlt⟩
          · rw [e1, e2] at hgt; omega
          · rw [e1, e2] at hgt; omega
        · exact hst
      · exact hst
    · exact hst

/-! ## A checked colouring and the search invariant -/

theorem stuck_upd (g : graph_t) (x y v : Nat) (col : Int) (hlen : g.nodes.length = 81)
    (hx : x < 9) (hy : y < 9) (he : sodoku_node_value g x y = 45) (hv : v ≠ 45)
    (hp : ¬ peer_holds g x y v) (hs : stuck g) :
    stuck ⟨g.nodes.set (x * 9 + y) v, col⟩ := by
  obtain ⟨b, hb, k, hk, hso⟩ := hs
  refine ⟨b, hb, k, hk, ?_⟩
  intro p hp' q hq hpb
  obtain ⟨s1, s2⟩ := hso p hp' q hq hpb
  by_cases e : p = x ∧ q = y
  · obtain ⟨rfl, rfl⟩ := e
    rw [node_upd_self g p q v col hlen hx hy]
    constructor
    · intro e2
      rw [e2] at hp
      exact hp (s2 he)
    · intro e2; exact absurd e2 hv
  · have e' : p ≠ x ∨ q ≠ y := by omega
    rw [node_upd_other g x y p q v col hlen hx hy hq e']
    refine ⟨s1, fun h0 => ?_⟩
    exact peer_holds_keeps g _ (keeps_upd g g x y v col hlen hx hy (keeps_refl g) he) p q _
      (by omega) (s2 h0)

theorem sound_inv_upd (g : graph_t) (x y v : Nat) (col : Int) (hlen : g.nodes.length = 81)
    (hx : x < 9) (hy : y < 9) (he : sodoku_node_value g x y = 45) (hv : v ≠ 45)
    (hp : ¬ peer_holds g x y v) (hs : sound_inv g) :
    sound_inv ⟨g.nodes.set (x * 9 + y) v, col⟩ := by
  refine ⟨block_distinct_upd g x y v col hlen hx hy hs.1 ?_, ?_⟩
  · intro i hi j hj hsb hd e
    exact hp ⟨i, hi, j, hj, ⟨hd, Or.inr (Or.inr hsb)⟩, e⟩
  · rcases hs.2 with h | h
    · exact Or.inl (no_conflict_upd g x y v col hlen hx hy h hp)
    · exact Or.inr (stuck_upd g x y v col hlen hx hy he hv hp h)

theorem no_conflict_block_distinct (g : graph_t) (h : no_conflict g) : block_distinct g := by
  intro x hx y hy i hi j hj hsb hd hne e
  exact h x hx y hy hne ⟨i, hi, j, hj, ⟨hd, Or.inr (Or.inr hsb)⟩, e⟩

/-- A full grid with duplicate free blocks has every digit in every block. -/
theorem full_not_stuck (g : graph_t) (hs : grid_shape g) (hb : block_distinct g)
    (hf : ∀ x, x < 9 → ∀ y, y < 9 → sodoku_node_value g x y ≠ 45) : ¬ stuck g := by
  rintro ⟨b, hb', k, hk, hso⟩
  have hcell : ∀ t : Fin 9, b / 3 * 3 + t.val / 3 < 9 ∧ b % 3 * 3 + t.val % 3 < 9 ∧
      (b / 3 * 3 + t.val / 3) / 3 * 3 + (b % 3 * 3 + t.val % 3) / 3 = b := by
    intro t; have := t.isLt; omega
  have hval : ∀ t : Fin 9,
      sodoku_node_value g (b / 3 * 3 + t.val / 3) (b % 3 * 3 + t.val % 3) - 49 < 9 := by
    intro t
    obtain ⟨h1, h2, _⟩ := hcell t
    have := node_cell_ok g hs _ _ h1 h2
    have := hf _ h1 _ h2
    unfold cell_ok at *
    omega
  let f : Fin 9 → Fin 9 := fun t =>
    ⟨sodoku_node_value g (b / 3 * 3 + t.val / 3) (b % 3 * 3 + t.val % 3) - 49, hval t⟩
  have hinj : Function.Injective f := by
    intro s t hst
    have hv : sodoku_node_value g (b / 3 * 3 + s.val / 3) (b % 3 * 3 + s.val % 3) - 49
        = sodoku_node_value g (b / 3 * 3 + t.val / 3) (b % 3 * 3 + t.val % 3) - 49 :=
      congrArg Fin.val hst
    obtain ⟨s1, s2, _⟩ := hcell s
    obtain ⟨t1, t2, _⟩ := hcell t
    have c1 := node_cell_ok g hs _ _ s1 s2
    have c2 := node_cell_ok g hs _ _ t1 t2
    have n1 := hf _ s1 _ s2
    have n2 := hf _ t1 _ t2
    unfold cell_ok at c1 c2
    have hv2 : sodoku_node_value g (b / 3 * 3 + t.val / 3) (b % 3 * 3 + t.val % 3)
        = sodoku_node_value g (b / 3 * 3 + s.val / 3) (b % 3 * 3 + s.val % 3) := by omega
    by_contra hne
    have hne' : s.val ≠ t.val := fun h => hne (Fin.ext h)
    have hsb : same_block (b / 3 * 3 + s.val / 3) (b % 3 * 3 + s.val % 3)
        (b / 3 * 3 + t.val / 3) (b % 3 * 3 + t.val % 3) := by
      have := s.isLt; have := t.isLt
      unfold same_block; omega
    exact hb _ s1 _ s2 _ t1 _ t2 hsb (by have := s.isLt; have := t.isLt; omega) n1 hv2
  obtain ⟨t, ht⟩ := (Finite.injective_iff_surjective.1 hinj) ⟨k, hk⟩
  have hv : sodoku_node_value g (b / 3 * 3 + t.val / 3) (b % 3 * 3 + t.val % 3) - 49 = k :=
    congrArg Fin.val ht
  obtain ⟨t1, t2, t3⟩ := hcell t
  have c1 := node_cell_ok g hs _ _ t1 t2
  have n1 := hf _ t1 _ t2
  unfold cell_ok at c1
  exact (hso _ t1 _ t2 t3).1 (by omega)

/-- A fully coloured grid that satisfies the search invariant is a valid
completed Sudoku. -/
theorem full_sound_solved (g : graph_t) (hs : grid_shape g) (hc : colored_inv g)
    (h81 : g.colored = 81) (hi : sound_inv g) : solved g := by
  have hfull : ∀ x, x < 9 → ∀ y, y < 9 → sodoku_node_value g x y ≠ 45 := by
    intro x hx y hy
    unfold sodoku_node_value
    apply filled_eq_length g.nodes
    · unfold colored_inv at hc
      rw [hs.1]; omega
    · rw [hs.1]; omega
  refine ⟨hs, hfull, ?_⟩
  rcases hi.2 with h | h
  · exact h
  · exact absurd h (full_not_stuck g hs hi.1 hfull)


/-! ## Saving and restoring the grid -/

theorem copy_nodes (src : List Nat) (dst : graph_t) (hs : src.length = 81)
    (hd : dst.nodes.length = 81) :
    (List.range 81).foldl (fun (t : graph_t) i =>
      { t with nodes := t.nodes.set i (src.getD i 0) }) dst = ⟨src, dst.colored⟩ := by
  have h := foldl_range_inv
    (fun n (t : graph_t) => t.colored = dst.colored ∧ t.nodes.length = 81 ∧
      ∀ k, k < n → t.nodes.getD k 0 = src.getD k 0)
    (fun (t : graph_t) i => { t with nodes := t.nodes.set i (src.getD i 0) }) 81 dst
    ⟨rfl, hd, fun k hk => absurd hk (by omega)⟩
    (by
      intro i t hi ht
      refine ⟨ht.1, by simpa using ht.2.1, ?_⟩
      intro k hk
      dsimp only
      rw [getD_set]
      by_cases e : i = k
      · rw [if_pos ⟨e, by omega⟩, e]
      · rw [if_neg (fun h => e h.1)]
        exact ht.2.2 k (by omega))
  generalize (List.range 81).foldl (fun (t : graph_t) i =>
      { t with nodes := t.nodes.set i (src.getD i 0) }) dst = r at h
  obtain ⟨n, c⟩ := r
  obtain ⟨h1, h2, h3⟩ := h
  dsimp only at h1 h2 h3
  rw [h1, list_ext_getD n src (by omega) (fun k hk => h3 k (by omega))]

theorem push_state_eq (g : graph_t) (hlen : g.nodes.length = 81) : sodoku_push_state g = g := by
  unfold sodoku_push_state
  dsimp only
  rw [copy_nodes g.nodes ⟨List.replicate 81 0, 0⟩ hlen (by simp)]

theorem pop_state_eq (t f : graph_t) (ht : t.nodes.length = 81) (hf : f.nodes.length = 81) :
    sodoku_pop_state t f = if t.colored ≠ 81 then f else t := by
  unfold sodoku_pop_state
  by_cases h : t.colored ≠ 81
  · rw [if_pos h, if_pos h]
    dsimp only
    rw [copy_nodes f.nodes t hf ht]
  · rw [if_neg h, if_neg h]

/-! ## The search loops of `sodoku_color` -/

theorem full_of_colored (g : graph_t) (hs : grid_shape g) (hc : colored_inv g)
    (h81 : g.colored = 81) : ∀ x, x < 9 → ∀ y, y < 9 → sodoku_node_value g x y ≠ 45 := by
  intro x hx y hy
  unfold sodoku_node_value
  apply filled_eq_length g.nodes
  · unfold colored_inv at hc
    rw [hs.1]; omega
  · rw [hs.1]; omega

theorem clear_after_set (g : graph_t) (x y v : Nat) (he : sodoku_node_value g x y = 45) :
    (⟨(g.nodes.set (x * 9 + y) v).set (x * 9 + y) 45, g.colored + 1 - 1⟩ : graph_t) = g := by
  unfold sodoku_node_value at he
  have e1 : (g.nodes.set (x * 9 + y) v).set (x * 9 + y) 45 = g.nodes := by
    rw [← he]; exact set_set_getD _ _ _
  have e2 : g.colored + 1 - 1 = g.colored := by omega
  rw [e1, e2]

theorem color_for_spec (rec : graph_t → Option (Int × graph_t)) (g1 : graph_t)
    (hs : grid_shape g1) (hc : colored_inv g1) (x y : Nat) (hx : x < 9) (hy : y < 9)
    (he : sodoku_node_value g1 x y = 45) (adj : List Nat)
    (hrec : ∀ g2, grid_shape g2 → colored_inv g2 → filled g1.nodes < filled g2.nodes →
      ∃ r, rec g2 = some r ∧ color_post g2 r)
    (rtn : Int) :
    ∀ L : List Nat, (∀ i, i ∈ L → i < 9) →
      ∃ r, color_for rec x y adj L g1 rtn = some r ∧
        ((r.1 = g1 ∧ r.2 = rtn) ∨ (r.2 = 81 ∧ win g1 r.1)) := by
  intro L
  induction L with
  | nil => intro _; exact ⟨(g1, rtn), rfl, Or.inl ⟨rfl, rfl⟩⟩
  | cons i rest ih =>
    intro hL
    have hi : i < 9 := hL i (by simp)
    have ih' := ih (fun k hk => hL k (by simp [hk]))
    unfold color_for
    by_cases ha : adj.getD i 0 = 0
    · rw [if_pos ha]
      dsimp only
      have e49 : i + 1 + 48 = i + 49 := by omega
      rw [e49, set_digit_on_empty g1 x y i hx hy hi hs.1 he]
      by_cases hp : peer_holds g1 x y (i + 49)
      · rw [if_pos hp]
        dsimp only
        rw [if_neg (by simp), set_empty_on_empty g1 x y he]
        exact ih'
      · rw [if_neg hp]
        dsimp only
        rw [if_pos (by simp)]
        have hci := colored_inv_upd_new g1 x y (i + 49) hs.1 hx hy hc he (by omega)
        have hs2 := shape_upd g1 (x * 9 + y) (i + 49) (g1.colored + 1) hs (cell_ok_digit i hi)
        obtain ⟨r, hr, hpost⟩ := hrec _ hs2 hci.1 (by dsimp only; rw [hci.2]; omega)
        rw [hr]
        dsimp only
        rcases hpost with ⟨r1, r2, _⟩ | ⟨r1, w1, w2, w3, w4, w5⟩
        · rw [if_neg (by rw [r1]; simp), r2,
            set_empty_on_digit _ x y (by rw [node_upd_self g1 x y _ _ hs.1 hx hy]; omega)]
          dsimp only
          rw [clear_after_set g1 x y (i + 49) he]
          exact ih'
        · rw [if_pos (by rw [r1]; simp)]
          refine ⟨_, rfl, Or.inr ⟨w1, w1, w2, w3, ?_, ?_⟩⟩
          · exact keeps_trans _ _ _
              (keeps_upd g1 g1 x y _ _ hs.1 hx hy (keeps_refl g1) he) w4
          · intro h
            exact w5 (sound_inv_upd g1 x y _ _ hs.1 hx hy he (by omega) hp h)
    · rw [if_neg ha]
      exact ih'

theorem fetch_next_full (g : graph_t)
    (hf : ∀ x, x < 9 → ∀ y, y < 9 → sodoku_node_value g x y ≠ 45) (px py : Int) :
    (sodoku_fetch_next_node g px py).1 = 0 := by
  rcases fetch_next_spec g px py with h | ⟨_, i, hi, j, hj, _, _, he, _⟩
  · exact h.1
  · exact absurd he (hf i hi j hj)

theorem color_while_spec (rec : graph_t → Option (Int × graph_t)) (g1 : graph_t)
    (hs : grid_shape g1) (hc : colored_inv g1)
    (hrec : ∀ g2, grid_shape g2 → colored_inv g2 → filled g1.nodes < filled g2.nodes →
      ∃ r, rec g2 = some r ∧ color_post g2 r) (n : Nat) :
    ∀ (g : graph_t) (x y rtn : Int),
      ((g = g1 ∧ rtn = 0) ∨ (rtn = 81 ∧ win g1 g)) →
      1 ≤ n → (81 ≤ x * 9 + y + n ∨ 82 ≤ n) →
      ∃ r, color_while rec n g x y rtn = some r ∧
        ((r.1 = g1 ∧ r.2 = 0) ∨ (r.2 = 81 ∧ win g1 r.1)) := by
  induction n with
  | zero => intro g x y rtn _ h1; omega
  | succ n ih =>
    intro g x y rtn hst _ hfuel
    unfold color_while
    dsimp only
    rcases hst with ⟨rfl, rfl⟩ | ⟨hr, hw⟩
    · rcases fetch_next_spec g x y with ⟨f1, _, _⟩ | ⟨f1, i, hi, j, hj, fx, fy, he, hlt⟩
      · rw [if_neg (by rw [f1]; simp)]
        exact ⟨_, rfl, Or.inl ⟨rfl, rfl⟩⟩
      · rw [if_pos (by rw [f1]; simp), fx, fy]
        have ei : (i : Int).toNat = i := by omega
        have ej : (j : Int).toNat = j := by omega
        rw [ei, ej]
        obtain ⟨r, hr, hres⟩ := color_for_spec rec g hs hc i j hi hj he
          (sodoku_fetch_adj_values g i j (List.replicate 9 0)) hrec 0 (List.range 9)
          (fun k hk => List.mem_range.1 hk)
        rw [hr]
        dsimp only
        exact ih r.1 i j r.2 hres (by omega) (by omega)
    · have hfull := full_of_colored g hw.2.1 hw.2.2.1 hw.1
      rw [if_neg (by rw [fetch_next_full g hfull]; simp)]
      exact ⟨_, rfl, Or.inr ⟨hr, hw⟩⟩

/-- `sodoku_color` returns whenever the recursion bound exceeds the number of
uncoloured cells, with the result 0 and the grid restored, or with the result
81 and a fully coloured grid. -/
theorem sodoku_color_spec (fuel : Nat) :
    ∀ g : graph_t, grid_shape g → colored_inv g → 81 < fuel + filled g.nodes →
      ∃ r, sodoku_color fuel g = some r ∧ color_post g r := by
  induction fuel with
  | zero =>
    intro g hs _ hlt
    have := filled_le_81 g hs
    omega
  | succ fuel ih =>
    intro g hs hc hlt
    unfold sodoku_color
    dsimp only
    rw [push_state_eq g hs.1]
    obtain ⟨g1, hq, q0, q0', q1, q2, q3⟩ := quick_color_spec g hs hc
    rw [hq]
    dsimp only
    by_cases h81 : g1.colored = 81
    · rw [if_pos h81, pop_state_eq g1 g q0.1 hs.1, if_neg (by simp [h81])]
      exact ⟨_, rfl, Or.inr ⟨h81, h81, q0, q0', q1, q3⟩⟩
    · rw [if_neg h81]
      have hrec : ∀ g2, grid_shape g2 → colored_inv g2 → filled g1.nodes < filled g2.nodes →
          ∃ r, sodoku_color fuel g2 = some r ∧ color_post g2 r :=
        fun g2 h2 h2' hlt2 => ih g2 h2 h2' (by omega)
      obtain ⟨r, hr, hres⟩ := color_while_spec (sodoku_color fuel) g1 q0 q0' hrec 82 g1 (-1) (-1) 0
        (Or.inl ⟨rfl, rfl⟩) (by omega) (Or.inr (by omega))
      rw [hr]
      dsimp only
      rcases hres with ⟨r1, r2⟩ | ⟨r2, w1, w2, w3, w4, w5⟩
      · rw [r1, r2, pop_state_eq g1 g q0.1 hs.1, if_pos h81]
        refine ⟨_, rfl, Or.inl ⟨rfl, rfl, ?_⟩⟩
        intro hg
        unfold colored_inv at hc q0'
        have := filled_le_81 g1 q0
        have : filled g1.nodes = 81 := by omega
        exact h81 (by rw [q0', this]; rfl)
      · rw [r2, pop_state_eq r.1 g w2.1 hs.1, if_neg (by simp [w1])]
        exact ⟨_, rfl, Or.inr ⟨rfl, w1, w2, w3, keeps_trans _ _ _ q1 w4, fun h => w5 (q3 h)⟩⟩


/-! ## The claims about `sodoku_color` -/

theorem quick_color_empty_grid : sodoku_quick_color empty_grid = some (0, empty_grid) := by
  decide!

theorem fetch_next_empty_grid : sodoku_fetch_next_node empty_grid (-1) (-1) = (0, -1, -1) := by
  decide!

/-- Scenario B of the specification: the 30-clue `classic_puzzle` is solved
by propagation alone and `sodoku_color` returns 81 with `classic_solution`. -/
theorem classic_puzzle_solved :
    sodoku_color 82 classic_puzzle = some (81, classic_solution) := by
  decide!

/-- C1: the all-empty grid is a solvable puzzle (well formed, `colored` 0, no
conflict, `classic_solution` completes it), yet `sodoku_color` returns 0 on it
and leaves it all empty, whatever the recursion bound. -/
theorem sodoku_color_empty_grid :
    (grid_shape empty_grid ∧ colored_inv empty_grid ∧ no_conflict empty_grid ∧
      solved classic_solution ∧ keeps empty_grid classic_solution) ∧
    ∀ fuel, sodoku_color (fuel + 1) empty_grid = some (0, empty_grid) := by
  refine ⟨⟨by decide!, by decide!, by decide!, by decide!, ?_⟩, ?_⟩
  · intro x hx y hy h
    exact absurd (by revert x y; decide!) h
  · intro fuel
    unfold sodoku_color
    dsimp only
    rw [push_state_eq empty_grid (by decide), quick_color_empty_grid]
    dsimp only
    rw [if_neg (by decide)]
    unfold color_while
    dsimp only
    rw [fetch_next_empty_grid]
    dsimp only
    rw [if_neg (by decide)]
    dsimp only
    rw [pop_state_eq empty_grid empty_grid (by decide) (by decide), if_pos (by decide)]

/-- C2: on a well formed, conflict free grid `sodoku_color` returns, and when
the value it returns is not 0 the grid it leaves is a completed valid Sudoku:
every cell holds a digit and no digit is repeated among peers. -/
theorem sodoku_color_sound (g : graph_t) (fuel : Nat) (hs : grid_shape g)
    (hc : colored_inv g) (hn : no_conflict g) (hf : 81 < fuel + filled g.nodes) :
    ∃ r, sodoku_color fuel g = some r ∧ (r.1 ≠ 0 → solved r.2) := by
  obtain ⟨r, hr, hpost⟩ := sodoku_color_spec fuel g hs hc hf
  refine ⟨r, hr, ?_⟩
  intro hne
  rcases hpost with ⟨h0, _, _⟩ | ⟨_, w1, w2, w3, _, w5⟩
  · exact absurd h0 hne
  · exact full_sound_solved r.2 w2 w3 w1 (w5 ⟨no_conflict_block_distinct g hn, Or.inl hn⟩)

theorem sodoku_color_sound_witness :
    ∃ r, sodoku_color 82 classic_puzzle = some r ∧ (r.1 ≠ 0 → solved r.2) :=
  sodoku_color_sound classic_puzzle 82 (by decide!) (by decide!) (by decide!) (by decide!)

/-- C3: on a well formed grid whose `colored` is the number of coloured cells
`sodoku_color` returns, and afterwards `colored` is 81 or the whole grid
(cells and `colored`) is the grid that was passed in. -/
theorem sodoku_color_atomic (g : graph_t) (fuel : Nat) (hs : grid_shape g)
    (hc : colored_inv g) (hf : 81 < fuel + filled g.nodes) :
    ∃ r, sodoku_color fuel g = some r ∧ (r.2.colored = 81 ∨ r.2 = g) := by
  obtain ⟨r, hr, hpost⟩ := sodoku_color_spec fuel g hs hc hf
  refine ⟨r, hr, ?_⟩
  rcases hpost with ⟨_, h, _⟩ | ⟨_, w1, _⟩
  · exact Or.inr h
  · exact Or.inl w1

theorem sodoku_color_atomic_witness :
    ∃ r, sodoku_color 82 conflict_grid = some r ∧
      (r.2.colored = 81 ∨ r.2 = conflict_grid) :=
  sodoku_color_atomic conflict_grid 82 (by decide!) (by decide!) (by decide!)

/-- C4: on a well formed grid whose `colored` is the number of coloured cells
`sodoku_color` returns 81 or 0, and it returns 81 exactly when `colored` is 81
after the call. -/
theorem sodoku_color_result (g : graph_t) (fuel : Nat) (hs : grid_shape g)
    (hc : colored_inv g) (hf : 81 < fuel + filled g.nodes) :
    ∃ r, sodoku_color fuel g = some r ∧ (r.1 = 81 ∨ r.1 = 0) ∧
      (r.1 = 81 ↔ r.2.colored = 81) := by
  obtain ⟨r, hr, hpost⟩ := sodoku_color_spec fuel g hs hc hf
  refine ⟨r, hr, ?_⟩
  rcases hpost with ⟨h0, h1, h2⟩ | ⟨h0, w1, _⟩
  · refine ⟨Or.inr h0, ?_⟩
    rw [h0, h1]
    constructor
    · intro h; omega
    · intro h; exact absurd h h2
  · exact ⟨Or.inl h0, fun _ => w1, fun _ => h0⟩

theorem sodoku_color_result_witness :
    ∃ r, sodoku_color 82 empty_grid = some r ∧ (r.1 = 81 ∨ r.1 = 0) ∧
      (r.1 = 81 ↔ r.2.colored = 81) :=
  sodoku_color_result empty_grid 82 (by decide!) (by decide!) (by decide!)


/-! ## The claims about `sodoku_set` and the grid invariant -/

/-- C5: for an in-range uncoloured cell and a digit `d`, `sodoku_set` returns
1 exactly when no peer holds `d` (and 0 otherwise); when it returns 1 the cell
holds `d`, `colored` grew by one and every other cell is unchanged; when it
returns 0 the grid is exactly as before. -/
theorem sodoku_set_colours (g : graph_t) (x y d : Nat) (hlen : g.nodes.length = 81)
    (hx : x < 9) (hy : y < 9) (he : sodoku_node_value g x y = 45)
    (hd : 49 ≤ d ∧ d ≤ 57) :
    ((sodoku_set g x y d).1 = 1 ↔ ¬ peer_holds g x y d) ∧
    ((sodoku_set g x y d).1 = 1 ∨ (sodoku_set g x y d).1 = 0) ∧
    ((sodoku_set g x y d).1 = 1 →
      sodoku_node_value (sodoku_set g x y d).2 x y = d ∧
      (sodoku_set g x y d).2.colored = g.colored + 1 ∧
      ∀ i, i < 9 → ∀ j, j < 9 → (i ≠ x ∨ j ≠ y) →
        sodoku_node_value (sodoku_set g x y d).2 i j = sodoku_node_value g i j) ∧
    ((sodoku_set g x y d).1 = 0 → (sodoku_set g x y d).2 = g) := by
  have ed : d = (d - 49) + 49 := by omega
  rw [ed, set_digit_on_empty g x y (d - 49) hx hy (by omega) hlen he, ← ed]
  by_cases hp : peer_holds g x y d
  · rw [if_pos hp]
    refine ⟨?_, Or.inr rfl, ?_, fun _ => rfl⟩
    · constructor
      · intro h; simp at h
      · intro h; exact absurd hp h
    · intro h; simp at h
  · rw [if_neg hp]
    refine ⟨⟨fun _ => hp, fun _ => rfl⟩, Or.inl rfl, ?_, ?_⟩
    · intro _
      refine ⟨node_upd_self g x y d _ hlen hx hy, rfl, ?_⟩
      intro i _ j hj hne
      exact node_upd_other g x y i j d _ hlen hx hy hj hne
    · intro h; simp at h

theorem sodoku_set_colours_witness :
    ((sodoku_set classic_puzzle 0 2 52).1 = 1 ↔ ¬ peer_holds classic_puzzle 0 2 52) ∧
    ((sodoku_set classic_puzzle 0 2 52).1 = 1 ∨ (sodoku_set classic_puzzle 0 2 52).1 = 0) ∧
    ((sodoku_set classic_puzzle 0 2 52).1 = 1 →
      sodoku_node_value (sodoku_set classic_puzzle 0 2 52).2 0 2 = 52 ∧
      (sodoku_set classic_puzzle 0 2 52).2.colored = classic_puzzle.colored + 1 ∧
      ∀ i, i < 9 → ∀ j, j < 9 → (i ≠ 0 ∨ j ≠ 2) →
        sodoku_node_value (sodoku_set classic_puzzle 0 2 52).2 i j
          = sodoku_node_value classic_puzzle i j) ∧
    ((sodoku_set classic_puzzle 0 2 52).1 = 0 →
      (sodoku_set classic_puzzle 0 2 52).2 = classic_puzzle) :=
  sodoku_set_colours classic_puzzle 0 2 52 (by decide) (by decide) (by decide) (by decide!)
    (by decide)

/-- C7: when `sodoku_set` colours an in-range uncoloured cell with a digit and
returns 1, a following `sodoku_set` of the cell to `'-'` returns 0 and gives
back the original grid, cells and `colored`. -/
theorem sodoku_set_reversible (g : graph_t) (x y d : Nat) (hlen : g.nodes.length = 81)
    (hx : x < 9) (hy : y < 9) (he : sodoku_node_value g x y = 45)
    (hd : 49 ≤ d ∧ d ≤ 57) (h1 : (sodoku_set g x y d).1 = 1) :
    sodoku_set (sodoku_set g x y d).2 x y 45 = (0, g) := by
  have ed : d = (d - 49) + 49 := by omega
  rw [ed, set_digit_on_empty g x y (d - 49) hx hy (by omega) hlen he, ← ed] at h1 ⊢
  by_cases hp : peer_holds g x y d
  · rw [if_pos hp] at h1
    simp at h1
  · rw [if_neg hp]
    dsimp only
    rw [set_empty_on_digit _ x y (by rw [node_upd_self g x y _ _ hlen hx hy]; omega)]
    dsimp only
    rw [clear_after_set g x y d he]

theorem sodoku_set_reversible_witness :
    sodoku_set (sodoku_set classic_puzzle 0 2 52).2 0 2 45 = (0, classic_puzzle) :=
  sodoku_set_reversible classic_puzzle 0 2 52 (by decide) (by decide) (by decide)
    (by decide!) (by decide) (by decide!)

theorem init_spec (g : graph_t) (hlen : g.nodes.length = 81) :
    sodoku_init g = ⟨List.replicate 81 45, 0⟩ := by
  unfold sodoku_init
  have h := foldl_range2_inv
    (fun n (t : graph_t) => t.nodes.length = 81 ∧ ∀ k, k < n → t.nodes.getD k 0 = 45)
    (fun (t : graph_t) i j => { t with nodes := t.nodes.set (i * 9 + j) 45 }) 9 9 g
    ⟨hlen, fun k hk => absurd hk (by omega)⟩
    (by
      intro i j t hi hj ht
      refine ⟨by simpa using ht.1, ?_⟩
      intro k hk
      dsimp only
      rw [getD_set]
      by_cases e : i * 9 + j = k
      · rw [if_pos ⟨e, by omega⟩]
      · rw [if_neg (fun h => e h.1)]
        exact ht.2 k (by omega))
  dsimp only
  generalize (List.range 9).foldl (fun (t : graph_t) i =>
      (List.range 9).foldl (fun (t : graph_t) j =>
        { t with nodes := t.nodes.set (i * 9 + j) 45 }) t) g = r at h
  obtain ⟨n, c⟩ := r
  obtain ⟨h1, h2⟩ := h
  dsimp only at h1 h2 ⊢
  have : n = List.replicate 81 45 := by
    apply list_ext_getD n _ (by simp [h1])
    intro k hk
    rw [h2 k (by omega), List.getD_eq_getElem?_getD, List.getElem?_replicate,
      if_pos (by omega)]
    rfl
  rw [this]

theorem set_colored_inv (g : graph_t) (x y c : Nat) (hlen : g.nodes.length = 81)
    (hx : x < 9) (hy : y < 9) (hc : colored_inv g) (hv : cell_ok c) :
    colored_inv (sodoku_set g x y c).2 := by
  by_cases ho : sodoku_node_value g x y = 45
  · rcases hv with rfl | hv
    · rw [set_empty_on_empty g x y ho]; exact hc
    · have ed : c = (c - 49) + 49 := by omega
      rw [ed, set_digit_on_empty g x y (c - 49) hx hy (by omega) hlen ho, ← ed]
      by_cases hp : peer_holds g x y c
      · rw [if_pos hp]; exact hc
      · rw [if_neg hp]
        exact (colored_inv_upd_new g x y c hlen hx hy hc ho (by omega)).1
  · rcases hv with rfl | hv
    · rw [set_empty_on_digit g x y ho]
      exact (colored_inv_upd_clear g x y hlen hx hy hc ho).1
    · rw [set_digit_on_digit g x y c (by omega) ho]
      exact (colored_inv_upd_over g x y c hlen hx hy hc ho (by omega)).1

/-- C8: `colored` is the number of non `'-'` cells after `sodoku_init` (all
81 cells `'-'`, `colored` 0), and on a well formed grid where it holds it
still holds after every `sodoku_set` with in-range coordinates and a value
`'-'` or `'1'..'9'`, after `sodoku_quick_color` and after `sodoku_color`
(both of which return). -/
theorem colored_invariant (g : graph_t) (hs : grid_shape g) (hc : colored_inv g) :
    (∀ g0 : graph_t, g0.nodes.length = 81 →
      sodoku_init g0 = ⟨List.replicate 81 45, 0⟩ ∧ colored_inv (sodoku_init g0)) ∧
    (∀ x, x < 9 → ∀ y, y < 9 → ∀ c, cell_ok c → colored_inv (sodoku_set g x y c).2) ∧
    (∃ q, sodoku_quick_color g = some q ∧ colored_inv q.2) ∧
    (∀ fuel, 81 < fuel + filled g.nodes →
      ∃ r, sodoku_color fuel g = some r ∧ colored_inv r.2) := by
  refine ⟨?_, ?_, ?_, ?_⟩
  · intro g0 h0
    rw [init_spec g0 h0]
    exact ⟨rfl, by decide⟩
  · intro x hx y hy c hv
    exact set_colored_inv g x y c hs.1 hx hy hc hv
  · obtain ⟨g2, hq, _, q2, _⟩ := quick_color_spec g hs hc
    exact ⟨_, hq, q2⟩
  · intro fuel hf
    obtain ⟨r, hr, hpost⟩ := sodoku_color_spec fuel g hs hc hf
    refine ⟨r, hr, ?_⟩
    rcases hpost with ⟨_, h1, _⟩ | ⟨_, _, _, w3, _⟩
    · rw [h1]; exact hc
    · exact w3

theorem colored_invariant_witness :
    (∀ g0 : graph_t, g0.nodes.length = 81 →
      sodoku_init g0 = ⟨List.replicate 81 45, 0⟩ ∧ colored_inv (sodoku_init g0)) ∧
    (∀ x, x < 9 → ∀ y, y < 9 → ∀ c, cell_ok c →
      colored_inv (sodoku_set classic_puzzle x y c).2) ∧
    (∃ q, sodoku_quick_color classic_puzzle = some q ∧ colored_inv q.2) ∧
    (∀ fuel, 81 < fuel + filled classic_puzzle.nodes →
      ∃ r, sodoku_color fuel classic_puzzle = some r ∧ colored_inv r.2) :=
  colored_invariant classic_puzzle (by decide!) (by decide!)


/-! ## Contradictory input and reading -/

/-- C9 as stated fails: row 0 of `conflict_grid` holds `'1'` in columns 3 and
7, yet `sodoku_color` colours the one uncoloured cell and returns 81. -/
theorem conflict_grid_reported_solved :
    (sodoku_node_value conflict_grid 0 3 = 49 ∧ sodoku_node_value conflict_grid 0 7 = 49) ∧
    sodoku_color 82 conflict_grid = some (81, ⟨conflict_grid.nodes.set 8 50, 81⟩) := by
  decide!

/-- C9, amended: on a well formed grid that holds the same digit twice in a
row, `sodoku_color` returns 0 with the grid exactly as passed in, or returns
81; in both cases the two conflicting cells still hold their given digit. -/
theorem sodoku_color_conflicting_row (g : graph_t) (fuel : Nat) (hs : grid_shape g)
    (hc : colored_inv g) (hf : 81 < fuel + filled g.nodes) (x y1 y2 : Nat)
    (hx : x < 9) (hy1 : y1 < 9) (hy2 : y2 < 9) (_hne : y1 ≠ y2)
    (hd : sodoku_node_value g x y1 ≠ 45)
    (heq : sodoku_node_value g x y1 = sodoku_node_value g x y2) :
    ∃ r, sodoku_color fuel g = some r ∧ (r.1 = 0 ∨ r.1 = 81) ∧ (r.1 = 0 → r.2 = g) ∧
      sodoku_node_value r.2 x y1 = sodoku_node_value g x y1 ∧
      sodoku_node_value r.2 x y2 = sodoku_node_value g x y2 := by
  obtain ⟨r, hr, hpost⟩ := sodoku_color_spec fuel g hs hc hf
  refine ⟨r, hr, ?_⟩
  rcases hpost with ⟨h0, h1, _⟩ | ⟨h0, _, _, _, w4, _⟩
  · exact ⟨Or.inl h0, fun _ => h1, by rw [h1], by rw [h1]⟩
  · refine ⟨Or.inr h0, fun h => ?_, w4 x hx y1 hy1 hd, w4 x hx y2 hy2 (by rw [← heq]; exact hd)⟩
    rw [h0] at h
    exact absurd h (by decide)

theorem sodoku_color_conflicting_row_witness :
    ∃ r, sodoku_color 82 conflict_grid = some r ∧ (r.1 = 0 ∨ r.1 = 81) ∧
      (r.1 = 0 → r.2 = conflict_grid) ∧
      sodoku_node_value r.2 0 3 = sodoku_node_value conflict_grid 0 3 ∧
      sodoku_node_value r.2 0 7 = sodoku_node_value conflict_grid 0 7 :=
  sodoku_color_conflicting_row conflict_grid 82 (by decide!) (by decide!) (by decide!) 0 3 7
    (by decide) (by decide) (by decide) (by decide) (by decide!) (by decide!)

theorem read_filter (fp : List Nat) :
    ∀ st : graph_t × Nat,
      fp.foldl (fun (st : graph_t × Nat) c =>
        if isdigit c = true ∨ c = 45 then
          ((sodoku_set st.1 (st.2 / 9) (st.2 % 9) c).2, st.2 + 1)
        else st) st
      = (fp.filter qualifies).foldl (fun (st : graph_t × Nat) c =>
        if isdigit c = true ∨ c = 45 then
          ((sodoku_set st.1 (st.2 / 9) (st.2 % 9) c).2, st.2 + 1)
        else st) st := by
  induction fp with
  | nil => intro st; rfl
  | cons c fp ih =>
    intro st
    by_cases hq : isdigit c = true ∨ c = 45
    · have : qualifies c = true := by
        unfold qualifies; rcases hq with h | h <;> simp [h]
      rw [List.filter_cons_of_pos this, List.foldl_cons, List.foldl_cons, ih]
    · have : ¬ qualifies c = true := by
        unfold qualifies
        intro h
        simp only [Bool.or_eq_true, beq_iff_eq] at h
        exact hq h
      rw [List.filter_cons_of_neg this, List.foldl_cons, if_neg hq, ih]

theorem read_count (fp : List Nat) :
    ∀ st : graph_t × Nat,
      (fp.foldl (fun (st : graph_t × Nat) c =>
        if isdigit c = true ∨ c = 45 then
          ((sodoku_set st.1 (st.2 / 9) (st.2 % 9) c).2, st.2 + 1)
        else st) st).2 = st.2 + (fp.filter qualifies).length := by
  induction fp with
  | nil => intro st; rfl
  | cons c fp ih =>
    intro st
    rw [List.foldl_cons, ih]
    by_cases hq : isdigit c = true ∨ c = 45
    · have : qualifies c = true := by
        unfold qualifies; rcases hq with h | h <;> simp [h]
      rw [if_pos hq, List.filter_cons_of_pos this, List.length_cons]
      dsimp only
      omega
    · have : ¬ qualifies c = true := by
        unfold qualifies
        intro h
        simp only [Bool.or_eq_true, beq_iff_eq] at h
        exact hq h
      rw [if_neg hq, List.filter_cons_of_neg this]

/-- C11 as stated fails: on 82 `'-'` characters `sodoku_read` returns 0 (more
than 81 qualifying characters), and on one `'0'` followed by 80 `'-'` it
returns 1 (the `'0'` is counted). -/
theorem read_counts_exactly :
    (sodoku_read long_input (sodoku_init empty_grid)).1 = 0 ∧
    (sodoku_read zero_input (sodoku_init empty_grid)).1 = 1 := by
  decide!

/-- C11, amended: `sodoku_read` returns 1 exactly when the input holds
exactly 81 characters that pass its test `isdigit(c) || c == '-'` (`'0'..'9'`
and `'-'`), and 0 otherwise, with fewer and with more than 81 alike; every
other character is ignored and not counted: reading the input and reading
its qualifying characters alone give the same result. -/
theorem sodoku_read_result (fp : List Nat) (g : graph_t) :
    ((sodoku_read fp g).1 = 1 ↔ (fp.filter qualifies).length = 81) ∧
    ((sodoku_read fp g).1 = 0 ↔ (fp.filter qualifies).length ≠ 81) ∧
    sodoku_read fp g = sodoku_read (fp.filter qualifies) g := by
  have hfil : sodoku_read fp g = sodoku_read (fp.filter qualifies) g := by
    unfold sodoku_read
    dsimp only
    rw [read_filter fp (g, 0)]
  have hval : (sodoku_read fp g).1 = if (fp.filter qualifies).length = 81 then 1 else 0 := by
    have hcnt := read_count fp (g, 0)
    unfold sodoku_read
    dsimp only at hcnt ⊢
    rw [hcnt, Nat.zero_add]
  rw [hval]
  refine ⟨?_, ?_, hfil⟩
  · by_cases h : (fp.filter qualifies).length = 81
    · rw [if_pos h]; exact ⟨fun _ => h, fun _ => rfl⟩
    · rw [if_neg h]; constructor
      · intro h1; simp at h1
      · intro h1; exact absurd h1 h
  · by_cases h : (fp.filter qualifies).length = 81
    · rw [if_pos h]; constructor
      · intro h1; simp at h1
      · intro h1; exact absurd h h1
    · rw [if_neg h]; exact ⟨fun _ => h, fun _ => rfl⟩

/-- C12: `overwrite_grid` is well formed and conflict free, and
`sodoku_quick_color` leaves `'8'` both in cell (2,2) and in cell (8,2) of
column 2: the pass colours (2,2) with `'8'`, colours (8,2) with `'6'` and then
writes `'8'` over the `'6'` without an interference check. -/
theorem quick_color_introduces_conflict :
    (grid_shape overwrite_grid ∧ colored_inv overwrite_grid ∧ no_conflict overwrite_grid) ∧
    ∃ g, sodoku_quick_color overwrite_grid = some (0, g) ∧
      sodoku_node_value g 2 2 = 56 ∧ sodoku_node_value g 8 2 = 56 ∧ ¬ no_conflict g := by
  refine ⟨by decide!, ⟨(⟨(overwrite_grid.nodes.set 20 56).set 74 56, 69⟩ : graph_t), ?_⟩⟩
  decide!

/-- C14 as stated fails: on `classic_puzzle` the passes of
`sodoku_quick_color` colour the 51 uncoloured cells, `colored` ends at 81, and
the value returned is 0. -/
theorem quick_color_returns_zero_after_colouring :
    classic_puzzle.colored = 30 ∧ classic_solution.colored = 81 ∧
    sodoku_quick_color classic_puzzle = some (0, classic_solution) := by
  decide!

/-- C14, amended: on a well formed grid `sodoku_quick_color` returns, and the
value it returns is always 0, whether or not a pass coloured a cell (the loop
ends only after a pass that left `rtn` at 0); the number of coloured cells is
in `colored` of the grid, which never decreases. -/
theorem sodoku_quick_color_result (g : graph_t) (hs : grid_shape g) (hc : colored_inv g) :
    ∃ g2, sodoku_quick_color g = some (0, g2) ∧ g.colored ≤ g2.colored := by
  obtain ⟨g2, hq, _, q2, _, q4, _⟩ := quick_color_spec g hs hc
  refine ⟨g2, hq, ?_⟩
  unfold colored_inv at hc q2
  rw [hc, q2]
  omega

theorem sodoku_quick_color_result_witness :
    ∃ g2, sodoku_quick_color overwrite_grid = some (0, g2) ∧
      overwrite_grid.colored ≤ g2.colored :=
  sodoku_quick_color_result overwrite_grid (by decide!) (by decide!)

/-- C20: on a well formed grid whose `colored` is the number of coloured
cells, every cell that holds a digit before `sodoku_color` still holds it
after the call, whether it returns 0 or 81, and every cell that holds a digit
before `sodoku_quick_color` still holds it afterwards. -/
theorem givens_preserved (g : graph_t) (hs : grid_shape g) (hc : colored_inv g) :
    (∀ fuel, 81 < fuel + filled g.nodes →
      ∃ r, sodoku_color fuel g = some r ∧
        ∀ x, x < 9 → ∀ y, y < 9 → sodoku_node_value g x y ≠ 45 →
          sodoku_node_value r.2 x y = sodoku_node_value g x y) ∧
    (∃ q, sodoku_quick_color g = some q ∧
      ∀ x, x < 9 → ∀ y, y < 9 → sodoku_node_value g x y ≠ 45 →
        sodoku_node_value q.2 x y = sodoku_node_value g x y) := by
  constructor
  · intro fuel hf
    obtain ⟨r, hr, hpost⟩ := sodoku_color_spec fuel g hs hc hf
    refine ⟨r, hr, ?_⟩
    rcases hpost with ⟨_, h1, _⟩ | ⟨_, _, _, _, w4, _⟩
    · intro x _ y _ _; rw [h1]
    · exact w4
  · obtain ⟨g2, hq, _, _, q3, _⟩ := quick_color_spec g hs hc
    exact ⟨_, hq, q3⟩

theorem givens_preserved_witness :
    (∀ fuel, 81 < fuel + filled overwrite_grid.nodes →
      ∃ r, sodoku_color fuel overwrite_grid = some r ∧
        ∀ x, x < 9 → ∀ y, y < 9 → sodoku_node_value overwrite_grid x y ≠ 45 →
          sodoku_node_value r.2 x y = sodoku_node_value overwrite_grid x y) ∧
    (∃ q, sodoku_quick_color overwrite_grid = some q ∧
      ∀ x, x < 9 → ∀ y, y < 9 → sodoku_node_value overwrite_grid x y ≠ 45 →
        sodoku_node_value q.2 x y = sodoku_node_value overwrite_grid x y) :=
  givens_preserved overwrite_grid (by decide!) (by decide!)


/-! ## Propagation is a deduction step -/

/-- Every block of a completed valid grid holds every digit. -/
theorem solved_block_has (S : graph_t) (hS : solved S) (b k : Nat) (hb : b < 9) (hk : k < 9) :
    ∃ i, i < 9 ∧ ∃ j, j < 9 ∧ i / 3 * 3 + j / 3 = b ∧ sodoku_node_value S i j = k + 49 := by
  by_contra hcon
  apply full_not_stuck S hS.1 (no_conflict_block_distinct S hS.2.2) hS.2.1
  refine ⟨b, hb, k, hk, ?_⟩
  intro i hi j hj hblk
  constructor
  · intro e
    exact hcon ⟨i, hi, j, hj, hblk, e⟩
  · intro e
    exact absurd e (hS.2.1 i hi j hj)

/-- The vertex of a singleton set holds the colour of the set in every
completed valid grid that agrees with the grid the pass started on. -/
theorem singleton_agrees (g0 S : graph_t) (T : List sodoku_set_member) (hbo : build_ok g0 T)
    (hS : solved S) (hag : keeps g0 S) (b k : Nat) (hb : b < 9) (hk : k < 9)
    (hc : (colors_get T b k).count = 1) :
    sodoku_node_value S (colors_get T b k).x (colors_get T b k).y = k + 49 := by
  obtain ⟨hx, hy, hblk, hemp, hnp⟩ := (hbo.2 b hb k hk).1 (by omega)
  obtain ⟨i, hi, j, hj, hblk2, hv⟩ := solved_block_has S hS b k hb hk
  have hsup : supports g0 b k i j := by
    have hnp2 : ¬ peer_holds g0 i j (k + 49) := by
      rintro ⟨p, hp, q, hq, hpe, hpv⟩
      have e := hag p hp q hq (by rw [hpv]; omega)
      rw [hpv] at e
      apply hS.2.2 i hi j hj (hS.2.1 i hi j hj)
      exact ⟨p, hp, q, hq, hpe, by rw [e, hv]⟩
    refine ⟨hblk2, ?_, hnp2⟩
    by_contra hne
    have e := hag i hi j hj hne
    rw [hv] at e
    by_cases hd : i = (colors_get T b k).x ∧ j = (colors_get T b k).y
    · rw [hd.1, hd.2] at hne
      exact hne hemp
    · apply hnp
      refine ⟨i, hi, j, hj, ⟨by omega, Or.inr (Or.inr ?_)⟩, e.symm⟩
      unfold same_block; omega
  have := (hbo.2 b hb k hk).2 hc i hi j hj hsup
  rw [← this.1, ← this.2]
  exact hv

/-- One pass keeps every completed valid grid that agrees with its start. -/
theorem pass_agrees (g0 S : graph_t) (cs : List sodoku_set_member) (hlen : cs.length = 81)
    (hs : grid_shape g0) (hc : colored_inv g0) (hS : solved S) (hag : keeps g0 S) :
    keeps (quick_color_pass g0 cs).1.1 S := by
  have hb := pass_build_ok g0 cs hlen
  have ha := apply_spec g0 _ hb hs hc
  unfold quick_color_pass
  dsimp only
  generalize quick_color_apply (quick_color_build g0 (quick_color_reset cs)) (g0, 0) = st at ha
  obtain ⟨g, rtn⟩ := st
  obtain ⟨_, _, a1, a2, _, _, _⟩ := ha
  dsimp only at a1 a2 ⊢
  intro x hx y hy hne
  by_cases h0 : sodoku_node_value g0 x y = 45
  · obtain ⟨b, hb', k, hk, _, r1, r2, r3, r4⟩ := a2 x hx y hy h0 hne
    have := singleton_agrees g0 S _ hb hS hag b k hb' hk r1
    rw [r2, r3] at this
    rw [this, r4]
  · rw [a1 x hx y hy h0]
    exact hag x hx y hy h0

/-- A property of well formed grids that every pass keeps holds when the
pass loop of `sodoku_quick_color` ends. -/
theorem quick_color_loop_inv (Q : graph_t → Prop)
    (hQ : ∀ g cs, grid_shape g → colored_inv g → cs.length = 81 → Q g →
      Q (quick_color_pass g cs).1.1) (n : Nat) :
    ∀ (g : graph_t) (cs : List sodoku_set_member), grid_shape g → colored_inv g →
      cs.length = 81 → Q g → ∀ r, quick_color_loop n g cs = some r → Q r.2 := by
  induction n with
  | zero =>
    intro g cs _ _ _ _ r hr
    unfold quick_color_loop at hr
    exact absurd hr (by simp)
  | succ n ih =>
    intro g cs hs hc hlen hq r hr
    obtain ⟨⟨p0, p0', _, _, _⟩, plen⟩ := pass_spec g cs hlen hs hc
    have hq2 := hQ g cs hs hc hlen hq
    unfold quick_color_loop at hr
    dsimp only at hr
    by_cases h : (quick_color_pass g cs).1.2 ≠ 0
    · rw [if_pos h] at hr
      exact ih _ _ p0 p0' plen hq2 r hr
    · rw [if_neg h] at hr
      have e : r = ((quick_color_pass g cs).1.2, (quick_color_pass g cs).1.1) :=
        (Option.some.inj hr).symm
      rw [e]
      exact hq2

/-- C13: for a well formed, conflict free grid `g` and a completed valid
Sudoku `S` that agrees with `g` on every coloured cell of `g`,
`sodoku_quick_color` returns and `S` agrees with the resulting grid on every
coloured cell of it: propagation commits no digit that a solution of the
input contradicts. -/
theorem quick_color_keeps_solutions (g S : graph_t) (hs : grid_shape g) (hc : colored_inv g)
    (_hn : no_conflict g) (hS : solved S) (hag : keeps g S) :
    ∃ q, sodoku_quick_color g = some q ∧
      ∀ x, x < 9 → ∀ y, y < 9 → sodoku_node_value q.2 x y ≠ 45 →
        sodoku_node_value S x y = sodoku_node_value q.2 x y := by
  obtain ⟨g2, hq, _⟩ := quick_color_spec g hs hc
  refine ⟨_, hq, ?_⟩
  unfold sodoku_quick_color at hq
  exact quick_color_loop_inv (fun h => keeps h S)
    (fun h cs h1 h2 h3 h4 => pass_agrees h S cs h3 h1 h2 hS h4) 82 g _ hs hc (by simp) hag
    _ hq

theorem quick_color_keeps_solutions_witness :
    ∃ q, sodoku_quick_color classic_puzzle = some q ∧
      ∀ x, x < 9 → ∀ y, y < 9 → sodoku_node_value q.2 x y ≠ 45 →
        sodoku_node_value classic_solution x y = sodoku_node_value q.2 x y :=
  quick_color_keeps_solutions classic_puzzle classic_solution (by decide!) (by decide!)
    (by decide!) (by decide!) (by decide!)


/-! ## The vertex selector and the adjacency set -/

theorem count_flags (adj : List Nat) :
    0 ≤ (List.range 9).foldl (fun (count : Int) i =>
        if adj.getD i 0 ≠ 0 then count + 1 else count) 0 ∧
    ((List.range 9).foldl (fun (count : Int) i =>
        if adj.getD i 0 ≠ 0 then count + 1 else count) 0 = 9 ↔
      ∀ k, k < 9 → adj.getD k 0 ≠ 0) ∧
    ((List.range 9).foldl (fun (count : Int) i =>
        if adj.getD i 0 ≠ 0 then count + 1 else count) 0 = 0 ↔
      ∀ k, k < 9 → adj.getD k 0 = 0) := by
  have h := foldl_range_inv
    (fun n (c : Int) => 0 ≤ c ∧ c ≤ n ∧ (c = n ↔ ∀ k, k < n → adj.getD k 0 ≠ 0) ∧
      (c = 0 ↔ ∀ k, k < n → adj.getD k 0 = 0))
    (fun (count : Int) i => if adj.getD i 0 ≠ 0 then count + 1 else count) 9 0
    ⟨by omega, by simp, by simp, by simp⟩
    (by
      intro n c _ hc
      obtain ⟨c0, c1, c2, c3⟩ := hc
      dsimp only
      by_cases ha : adj.getD n 0 ≠ 0
      · rw [if_pos ha]
        refine ⟨by omega, by push_cast; omega, ?_, ?_⟩
        · constructor
          · intro e k hk
            by_cases ek : k = n
            · rw [ek]; exact ha
            · exact c2.1 (by push_cast at e; omega) k (by omega)
          · intro hall
            have := c2.2 (fun k hk => hall k (by omega))
            push_cast; omega
        · constructor
          · intro e; omega
          · intro hall
            exact absurd (hall n (by omega)) ha
      · rw [if_neg ha]
        have ha' : adj.getD n 0 = 0 := by
          by_contra h; exact ha h
        refine ⟨c0, by push_cast; omega, ?_, ?_⟩
        · constructor
          · intro e; push_cast at e; omega
          · intro hall
            exact absurd (hall n (by omega)) ha
        · constructor
          · intro e k hk
            by_cases ek : k = n
            · rw [ek]; exact ha'
            · exact c3.1 e k (by omega)
          · intro hall
            exact c3.2 (fun k hk => hall k (by omega)))
  exact ⟨h.1, by simpa using h.2.2.1, h.2.2.2⟩

/-- The peer count of a vertex is 9 exactly when every digit is held by a
peer, and 0 exactly when none is. -/
theorem count_adj_spec (g : graph_t) (x y : Nat) (hx : x < 9) (hy : y < 9) :
    0 ≤ sodoku_count_adj g x y ∧
    (sodoku_count_adj g x y = 9 ↔ ∀ k, k < 9 → peer_holds g x y (k + 49)) ∧
    (sodoku_count_adj g x y = 0 ↔ ∀ k, k < 9 → ¬ peer_holds g x y (k + 49)) := by
  unfold sodoku_count_adj
  dsimp only
  obtain ⟨h0, h1, h2⟩ := count_flags (sodoku_fetch_adj_values g x y (List.replicate 9 0))
  refine ⟨h0, ?_, ?_⟩
  · rw [h1]
    constructor
    · intro h k hk; exact (fetch_adj_spec g x y k hx hy hk).1 (h k hk)
    · intro h k hk; exact (fetch_adj_spec g x y k hx hy hk).2 (h k hk)
  · rw [h2]
    constructor
    · intro h k hk; exact (legal_iff g x y k hx hy hk).1 (h k hk)
    · intro h k hk; exact (legal_iff g x y k hx hy hk).2 (h k hk)

/-- The scan of `sodoku_fetch_next_node`: what the state `(rtn, *p_x, *p_y)`
satisfies after `n` cells. -/
theorem fetch_next_scan (g : graph_t) (px py : Int) :
    (((sodoku_fetch_next_node g px py).1 = 0 ∧ (sodoku_fetch_next_node g px py).2.1 = px ∧
        (sodoku_fetch_next_node g px py).2.2 = py) ∨
      ((sodoku_fetch_next_node g px py).1 = 1 ∧ ∃ i : Nat, i < 9 ∧ ∃ j : Nat, j < 9 ∧
        (sodoku_fetch_next_node g px py).2.1 = (i : Int) ∧
        (sodoku_fetch_next_node g px py).2.2 = (j : Int) ∧
        sodoku_node_value g i j = 45 ∧ px * 9 + py < (i : Int) * 9 + j ∧
        1 ≤ sodoku_count_adj g i j ∧ sodoku_count_adj g i j ≠ 9)) ∧
    (∀ i : Nat, i < 9 → ∀ j : Nat, j < 9 → sodoku_node_value g i j = 45 →
      px * 9 + py < (i : Int) * 9 + j → 1 ≤ sodoku_count_adj g i j →
      sodoku_count_adj g i j ≠ 9 → (sodoku_fetch_next_node g px py).1 = 1) := by
  unfold sodoku_fetch_next_node
  have h := foldl_range2_inv
    (fun (n : Nat) (st : Int × Int × Int) =>
      ((st.1 = 0 ∧ st.2.1 = px ∧ st.2.2 = py) ∨
        (st.1 = 1 ∧ ∃ i : Nat, i < 9 ∧ ∃ j : Nat, j < 9 ∧ st.2.1 = (i : Int) ∧
          st.2.2 = (j : Int) ∧ sodoku_node_value g i j = 45 ∧
          px * 9 + py < (i : Int) * 9 + j ∧
          1 ≤ sodoku_count_adj g i j ∧ sodoku_count_adj g i j ≠ 9)) ∧
      (∀ i : Nat, i < 9 → ∀ j : Nat, j < 9 → i * 9 + j < n → sodoku_node_value g i j = 45 →
        px * 9 + py < (i : Int) * 9 + j → 1 ≤ sodoku_count_adj g i j →
        sodoku_count_adj g i j ≠ 9 → st.1 = 1))
    (fun (st : Int × Int × Int) i j =>
      if sodoku_node_value g i j = 45 then
        let p := sodoku_count_adj g i j
        if ((i : Int) * 9 + j) > (st.2.1 * 9 + st.2.2) then
          if p > st.1 ∧ p ≠ 9 then (1, (i : Int), (j : Int)) else st
        else st
      else st) 9 9 (0, px, py)
    ⟨Or.inl ⟨rfl, rfl, rfl⟩, fun i _ j _ h => absurd h (by omega)⟩
    (by
      intro i j st hi hj hst
      obtain ⟨h1, h2⟩ := hst
      have hsplit : ∀ i2 : Nat, i2 < 9 → ∀ j2 : Nat, j2 < 9 → i2 * 9 + j2 < i * 9 + j + 1 →
          i2 * 9 + j2 < i * 9 + j ∨ (i2 = i ∧ j2 = j) := by
        intro i2 _ j2 _ h; omega
      dsimp only
      by_cases he : sodoku_node_value g i j = 45
      · rw [if_pos he]
        by_cases hgt : ((i : Int) * 9 + j) > (st.2.1 * 9 + st.2.2)
        · rw [if_pos hgt]
          by_cases hp : sodoku_count_adj g i j > st.1 ∧ sodoku_count_adj g i j ≠ 9
          · rw [if_pos hp]
            refine ⟨Or.inr ⟨rfl, i, hi, j, hj, rfl, rfl, he, ?_, ?_, hp.2⟩, fun _ _ _ _ _ _ _ _ _ => rfl⟩
            · rcases h1 with ⟨_, e1, e2⟩ | ⟨_, i2, _, j2, _, e1, e2, _, hlt, _⟩
              · rw [e1, e2] at hgt; omega
              · rw [e1, e2] at hgt; omega
            · rcases h1 with ⟨e0, _, _⟩ | ⟨e0, _⟩
              · rw [e0] at hp; omega
              · rw [e0] at hp; omega
          · rw [if_neg hp]
            refine ⟨h1, ?_⟩
            intro i2 hi2 j2 hj2 hlt he2 haf hc1 hc9
            rcases hsplit i2 hi2 j2 hj2 hlt with h | ⟨rfl, rfl⟩
            · exact h2 i2 hi2 j2 hj2 h he2 haf hc1 hc9
            · rcases h1 with ⟨e0, _, _⟩ | ⟨e0, _⟩
              · exfalso; apply hp; rw [e0]; exact ⟨by omega, hc9⟩
              · exact e0
        · rw [if_neg hgt]
          refine ⟨h1, ?_⟩
          intro i2 hi2 j2 hj2 hlt he2 haf hc1 hc9
          rcases hsplit i2 hi2 j2 hj2 hlt with h | ⟨rfl, rfl⟩
          · exact h2 i2 hi2 j2 hj2 h he2 haf hc1 hc9
          · rcases h1 with ⟨_, e1, e2⟩ | ⟨e0, _⟩
            · exfalso; rw [e1, e2] at hgt; omega
            · exact e0
      · rw [if_neg he]
        refine ⟨h1, ?_⟩
        intro i2 hi2 j2 hj2 hlt he2 haf hc1 hc9
        rcases hsplit i2 hi2 j2 hj2 hlt with h | ⟨rfl, rfl⟩
        · exact h2 i2 hi2 j2 hj2 h he2 haf hc1 hc9
        · exact absurd he2 he)
  exact ⟨h.1, fun i hi j hj => h.2 i hi j hj (by omega)⟩

/-- C16: whenever `sodoku_fetch_next_node` returns non-zero, the cell it
stores is in range, uncoloured, strictly after the input position in
row-major order, and has a legal colour: its peer count is not 9 and some
digit is held by none of its peers. -/
theorem fetch_next_node_yields (g : graph_t) (px py : Int)
    (h : (sodoku_fetch_next_node g px py).1 ≠ 0) :
    ∃ i : Nat, i < 9 ∧ ∃ j : Nat, j < 9 ∧
      (sodoku_fetch_next_node g px py).2.1 = (i : Int) ∧
      (sodoku_fetch_next_node g px py).2.2 = (j : Int) ∧
      sodoku_node_value g i j = 45 ∧ px * 9 + py < (i : Int) * 9 + j ∧
      sodoku_count_adj g i j ≠ 9 ∧ ∃ k, k < 9 ∧ ¬ peer_holds g i j (k + 49) := by
  rcases (fetch_next_scan g px py).1 with ⟨e, _⟩ | ⟨_, i, hi, j, hj, e1, e2, he, hlt, _, h9⟩
  · exact absurd e h
  · refine ⟨i, hi, j, hj, e1, e2, he, hlt, h9, ?_⟩
    by_contra hcon
    apply h9
    rw [(count_adj_spec g i j hi hj).2.1]
    intro k hk
    by_contra hk2
    exact hcon ⟨k, hk, hk2⟩

theorem fetch_next_node_yields_witness :
    ∃ i : Nat, i < 9 ∧ ∃ j : Nat, j < 9 ∧
      (sodoku_fetch_next_node classic_puzzle (-1) (-1)).2.1 = (i : Int) ∧
      (sodoku_fetch_next_node classic_puzzle (-1) (-1)).2.2 = (j : Int) ∧
      sodoku_node_value classic_puzzle i j = 45 ∧ (-1 : Int) * 9 + (-1) < (i : Int) * 9 + j ∧
      sodoku_count_adj classic_puzzle i j ≠ 9 ∧
      ∃ k, k < 9 ∧ ¬ peer_holds classic_puzzle i j (k + 49) :=
  fetch_next_node_yields classic_puzzle (-1) (-1) (by decide!)

theorem fetch_adj_indep (g : graph_t) (x y : Nat) (adj : List Nat) (h : adj.length = 9) :
    sodoku_fetch_adj_values g x y adj = sodoku_fetch_adj_values g x y (List.replicate 9 0) := by
  unfold sodoku_fetch_adj_values
  rw [init_map_eq adj h, init_map_eq (List.replicate 9 0) (by simp)]

/-- C17: for a well formed grid, an in-range cell `(x, y)`, a digit `d` in
1..9 and a length-9 vector `adj`, after `sodoku_fetch_adj_values` the flag
`adj[d-1]` is set exactly when a cell other than `(x, y)` in row `x`, column
`y` or the 3x3 box of `(x, y)` holds the digit; the value of the cell itself
does not contribute: the flags are the same whatever the cell holds. -/
theorem fetch_adj_values_flags (g : graph_t) (hs : grid_shape g) (x y d : Nat)
    (hx : x < 9) (hy : y < 9) (hd : 1 ≤ d ∧ d ≤ 9) (adj : List Nat) (hadj : adj.length = 9) :
    ((sodoku_fetch_adj_values g x y adj).getD (d - 1) 0 ≠ 0 ↔
      ∃ i, i < 9 ∧ ∃ j, j < 9 ∧ (i ≠ x ∨ j ≠ y) ∧
        (i = x ∨ j = y ∨ (i / 3 = x / 3 ∧ j / 3 = y / 3)) ∧
        sodoku_node_value g i j = d + 48) ∧
    (∀ v, ((sodoku_fetch_adj_values ⟨g.nodes.set (x * 9 + y) v, g.colored⟩ x y adj).getD
        (d - 1) 0 ≠ 0 ↔ (sodoku_fetch_adj_values g x y adj).getD (d - 1) 0 ≠ 0)) := by
  have _ := hs
  have e : d + 48 = (d - 1) + 49 := by omega
  constructor
  · rw [fetch_adj_indep g x y adj hadj, fetch_adj_spec g x y (d - 1) hx hy (by omega), e]
    unfold peer_holds peer same_block
    constructor
    · rintro ⟨i, hi, j, hj, ⟨h1, h2⟩, h3⟩; exact ⟨i, hi, j, hj, h1, h2, h3⟩
    · rintro ⟨i, hi, j, hj, h1, h2, h3⟩; exact ⟨i, hi, j, hj, ⟨h1, h2⟩, h3⟩
  · intro v
    rw [fetch_adj_indep g x y adj hadj, fetch_adj_indep _ x y adj hadj,
      fetch_adj_spec g x y (d - 1) hx hy (by omega),
      fetch_adj_spec _ x y (d - 1) hx hy (by omega)]
    exact peer_holds_set g x y v _ _ hy

theorem fetch_adj_values_flags_witness :
    ((sodoku_fetch_adj_values classic_puzzle 0 2 (List.replicate 9 7)).getD (5 - 1) 0 ≠ 0 ↔
      ∃ i, i < 9 ∧ ∃ j, j < 9 ∧ (i ≠ 0 ∨ j ≠ 2) ∧
        (i = 0 ∨ j = 2 ∨ (i / 3 = 0 / 3 ∧ j / 3 = 2 / 3)) ∧
        sodoku_node_value classic_puzzle i j = 5 + 48) ∧
    (∀ v, ((sodoku_fetch_adj_values
        ⟨classic_puzzle.nodes.set (0 * 9 + 2) v, classic_puzzle.colored⟩ 0 2
          (List.replicate 9 7)).getD (5 - 1) 0 ≠ 0 ↔
      (sodoku_fetch_adj_values classic_puzzle 0 2 (List.replicate 9 7)).getD (5 - 1) 0 ≠ 0)) :=
  fetch_adj_values_flags classic_puzzle (by decide!) 0 2 5 (by decide) (by decide) (by decide)
    (List.replicate 9 7) (by decide)


/-! ## Termination -/

/-- A pass whose table holds a singleton set colours a cell. -/
theorem pass_progress (g0 : graph_t) (cs : List sodoku_set_member) (hlen : cs.length = 81)
    (hs : grid_shape g0) (hc : colored_inv g0) :
    ((∃ b, b < 9 ∧ ∃ k, k < 9 ∧ (colors_get (quick_color_pass g0 cs).2 b k).count = 1) →
      g0.colored < (quick_color_pass g0 cs).1.1.colored) ∧
    ((quick_color_pass g0 cs).1.2 ≠ 0 →
      g0.colored < (quick_color_pass g0 cs).1.1.colored) := by
  have hb := pass_build_ok g0 cs hlen
  have ha := apply_spec g0 _ hb hs hc
  unfold quick_color_pass
  dsimp only
  generalize quick_color_apply (quick_color_build g0 (quick_color_reset cs)) (g0, 0) = st at ha
  obtain ⟨g, rtn⟩ := st
  obtain ⟨_, a0', _, _, a3, _, _⟩ := ha
  dsimp only at a0' a3 ⊢
  unfold colored_inv at hc a0'
  constructor
  · rintro ⟨b, hb', k, hk, h1⟩
    rcases a3 with ⟨_, _, e3⟩ | ⟨e, _⟩
    · exact absurd h1 (e3 b hb' k hk (by omega))
    · rw [hc, a0']; omega
  · intro hne
    rcases a3 with ⟨_, e2, _⟩ | ⟨e, _⟩
    · exact absurd e2 hne
    · rw [hc, a0']; omega

theorem color_for_congr (rec rec2 : graph_t → Option (Int × graph_t)) (g1 : graph_t)
    (hs : grid_shape g1) (hc : colored_inv g1) (x y : Nat) (hx : x < 9) (hy : y < 9)
    (he : sodoku_node_value g1 x y = 45) (adj : List Nat)
    (hrec : ∀ g2, grid_shape g2 → colored_inv g2 → filled g1.nodes < filled g2.nodes →
      ∃ r, rec g2 = some r ∧ color_post g2 r)
    (hagree : ∀ g2, grid_shape g2 → colored_inv g2 → filled g1.nodes < filled g2.nodes →
      rec g2 = rec2 g2)
    (rtn : Int) :
    ∀ L : List Nat, (∀ i, i ∈ L → i < 9) →
      color_for rec x y adj L g1 rtn = color_for rec2 x y adj L g1 rtn := by
  intro L
  induction L with
  | nil => intro _; rfl
  | cons i rest ih =>
    intro hL
    have hi : i < 9 := hL i (by simp)
    have ih' := ih (fun k hk => hL k (by simp [hk]))
    unfold color_for
    by_cases ha : adj.getD i 0 = 0
    · rw [if_pos ha, if_pos ha]
      dsimp only
      have e49 : i + 1 + 48 = i + 49 := by omega
      rw [e49, set_digit_on_empty g1 x y i hx hy hi hs.1 he]
      by_cases hp : peer_holds g1 x y (i + 49)
      · rw [if_pos hp]
        dsimp only
        rw [if_neg (by simp), if_neg (by simp), set_empty_on_empty g1 x y he]
        exact ih'
      · rw [if_neg hp]
        dsimp only
        rw [if_pos (by simp), if_pos (by simp)]
        have hci := colored_inv_upd_new g1 x y (i + 49) hs.1 hx hy hc he (by omega)
        have hs2 := shape_upd g1 (x * 9 + y) (i + 49) (g1.colored + 1) hs (cell_ok_digit i hi)
        have hlt : filled g1.nodes <
            filled (⟨g1.nodes.set (x * 9 + y) (i + 49), g1.colored + 1⟩ : graph_t).nodes := by
          dsimp only; rw [hci.2]; omega
        rw [← hagree _ hs2 hci.1 hlt]
        obtain ⟨r, hr, hpost⟩ := hrec _ hs2 hci.1 hlt
        rw [hr]
        dsimp only
        rcases hpost with ⟨r1, r2, _⟩ | ⟨r1, _⟩
        · rw [if_neg (by rw [r1]; simp), if_neg (by rw [r1]; simp), r2,
            set_empty_on_digit _ x y (by rw [node_upd_self g1 x y _ _ hs.1 hx hy]; omega)]
          dsimp only
          rw [clear_after_set g1 x y (i + 49) he]
          exact ih'
        · rw [if_pos (by rw [r1]; simp), if_pos (by rw [r1]; simp)]
    · rw [if_neg ha, if_neg ha]
      exact ih'

theorem color_while_congr (rec rec2 : graph_t → Option (Int × graph_t)) (g1 : graph_t)
    (hs : grid_shape g1) (hc : colored_inv g1)
    (hrec : ∀ g2, grid_shape g2 → colored_inv g2 → filled g1.nodes < filled g2.nodes →
      ∃ r, rec g2 = some r ∧ color_post g2 r)
    (hagree : ∀ g2, grid_shape g2 → colored_inv g2 → filled g1.nodes < filled g2.nodes →
      rec g2 = rec2 g2) (n : Nat) :
    ∀ (g : graph_t) (x y rtn : Int),
      ((g = g1 ∧ rtn = 0) ∨ (rtn = 81 ∧ win g1 g)) →
      color_while rec n g x y rtn = color_while rec2 n g x y rtn := by
  induction n with
  | zero => intro g x y rtn _; rfl
  | succ n ih =>
    intro g x y rtn hst
    unfold color_while
    dsimp only
    rcases hst with ⟨rfl, rfl⟩ | ⟨hr, hw⟩
    · rcases fetch_next_spec g x y with ⟨f1, _, _⟩ | ⟨f1, i, hi, j, hj, fx, fy, he, hlt⟩
      · rw [if_neg (by rw [f1]; simp), if_neg (by rw [f1]; simp)]
      · rw [if_pos (by rw [f1]; simp), if_pos (by rw [f1]; simp), fx, fy]
        have ei : (i : Int).toNat = i := by omega
        have ej : (j : Int).toNat = j := by omega
        rw [ei, ej]
        rw [← color_for_congr rec rec2 g hs hc i j hi hj he
          (sodoku_fetch_adj_values g i j (List.replicate 9 0)) hrec hagree 0 (List.range 9)
          (fun k hk => List.mem_range.1 hk)]
        obtain ⟨r, hr, hres⟩ := color_for_spec rec g hs hc i j hi hj he
          (sodoku_fetch_adj_values g i j (List.replicate 9 0)) hrec 0 (List.range 9)
          (fun k hk => List.mem_range.1 hk)
        rw [hr]
        dsimp only
        exact ih r.1 i j r.2 hres
    · have hfull := full_of_colored g hw.2.1 hw.2.2.1 hw.1
      rw [if_neg (by rw [fetch_next_full g hfull]; simp),
        if_neg (by rw [fetch_next_full g hfull]; simp)]

/-- The result of `sodoku_color` does not depend on the recursion bound once
the bound exceeds the number of uncoloured cells: no call nests deeper. -/
theorem sodoku_color_bound_indep (fuel : Nat) :
    ∀ (fuel2 : Nat) (g : graph_t), grid_shape g → colored_inv g →
      81 < fuel + filled g.nodes → 81 < fuel2 + filled g.nodes →
      sodoku_color fuel g = sodoku_color fuel2 g := by
  induction fuel with
  | zero =>
    intro _ g hs _ hlt _
    have := filled_le_81 g hs
    omega
  | succ fuel ih =>
    intro fuel2 g hs hc hlt hlt2
    cases fuel2 with
    | zero =>
      have := filled_le_81 g hs
      omega
    | succ fuel2 =>
      unfold sodoku_color
      dsimp only
      obtain ⟨g1, hq, q0, q0', _, q2, _⟩ := quick_color_spec g hs hc
      rw [hq]
      dsimp only
      by_cases h81 : g1.colored = 81
      · rw [if_pos h81, if_pos h81]
      · rw [if_neg h81, if_neg h81]
        have hrec : ∀ g2, grid_shape g2 → colored_inv g2 →
            filled g1.nodes < filled g2.nodes →
            ∃ r, sodoku_color fuel g2 = some r ∧ color_post g2 r :=
          fun g2 h2 h2' hlt3 => sodoku_color_spec fuel g2 h2 h2' (by omega)
        have hagree : ∀ g2, grid_shape g2 → colored_inv g2 →
            filled g1.nodes < filled g2.nodes →
            sodoku_color fuel g2 = sodoku_color fuel2 g2 :=
          fun g2 h2 h2' hlt3 => ih fuel2 g2 h2 h2' (by omega) (by omega)
        rw [color_while_congr (sodoku_color fuel) (sodoku_color fuel2) g1 q0 q0' hrec hagree
          82 g1 (-1) (-1) 0 (Or.inl ⟨rfl, rfl⟩)]

theorem color_empty_grid_any_bound (fuel : Nat) :
    sodoku_color (fuel + 1) empty_grid = some (0, empty_grid) := by
  unfold sodoku_color
  dsimp only
  rw [push_state_eq empty_grid (by decide), quick_color_empty_grid]
  dsimp only
  rw [if_neg (by decide)]
  unfold color_while
  dsimp only
  rw [fetch_next_empty_grid]
  dsimp only
  rw [if_neg (by decide)]
  dsimp only
  rw [pop_state_eq empty_grid empty_grid (by decide) (by decide), if_pos (by decide)]

theorem no_filled_is_empty_grid (g : graph_t) (hs : grid_shape g) (hc : colored_inv g)
    (h0 : filled g.nodes = 0) : g = empty_grid := by
  obtain ⟨nodes, colored⟩ := g
  unfold colored_inv at hc
  dsimp only at hc h0
  have hn : nodes = List.replicate 81 45 := by
    rw [← hs.1]
    apply List.eq_replicate_of_mem
    intro c hcm
    unfold filled at h0
    rw [List.countP_eq_zero] at h0
    have := h0 c hcm
    simpa using this
  have hcol : colored = 0 := by rw [hc, h0]; rfl
  rw [hn, hcol]
  rfl

/-- C18: on a well formed grid whose `colored` is the number of coloured
cells `sodoku_color` terminates: it returns the same result for every
recursion bound that is at least 81 or exceeds the number of uncoloured cells
(each recursive call receives more coloured cells than its caller, so no call
nests deeper). The pass loop of `sodoku_quick_color` ends within 82 passes,
and a pass that finds a singleton set, or after which the loop goes on,
strictly increases `colored`. A cell yielded by the selector lies strictly
after the position it was given, so the candidate loop advances. -/
theorem sodoku_color_terminates (g : graph_t) (hs : grid_shape g) (hc : colored_inv g) :
    (∃ r, ∀ fuel, (81 ≤ fuel ∨ 81 < fuel + filled g.nodes) → sodoku_color fuel g = some r) ∧
    (∃ q, quick_color_loop 82 g (List.replicate 81 ⟨0, 0, 0⟩) = some q) ∧
    (∀ cs : List sodoku_set_member, cs.length = 81 →
      ((∃ b, b < 9 ∧ ∃ k, k < 9 ∧ (colors_get (quick_color_pass g cs).2 b k).count = 1) →
        g.colored < (quick_color_pass g cs).1.1.colored) ∧
      ((quick_color_pass g cs).1.2 ≠ 0 →
        g.colored < (quick_color_pass g cs).1.1.colored)) ∧
    (∀ px py : Int, (sodoku_fetch_next_node g px py).1 ≠ 0 →
      px * 9 + py < (sodoku_fetch_next_node g px py).2.1 * 9
        + (sodoku_fetch_next_node g px py).2.2 ∧
      (sodoku_fetch_next_node g px py).2.1 * 9 + (sodoku_fetch_next_node g px py).2.2 ≤ 80) := by
  refine ⟨?_, ?_, ?_, ?_⟩
  · by_cases h0 : filled g.nodes = 0
    · have e := no_filled_is_empty_grid g hs hc h0
      refine ⟨(0, empty_grid), ?_⟩
      intro fuel hf
      have hpos : 1 ≤ fuel := by omega
      obtain ⟨f, rfl⟩ : ∃ f, fuel = f + 1 := ⟨fuel - 1, by omega⟩
      rw [e]
      exact color_empty_grid_any_bound f
    · obtain ⟨r, hr, _⟩ := sodoku_color_spec 81 g hs hc (by omega)
      refine ⟨r, ?_⟩
      intro fuel hf
      rw [← hr]
      exact sodoku_color_bound_indep fuel 81 g hs hc (by omega) (by omega)
  · obtain ⟨g2, hq, _⟩ := quick_color_spec g hs hc
    unfold sodoku_quick_color at hq
    exact ⟨_, hq⟩
  · intro cs hlen
    exact pass_progress g cs hlen hs hc
  · intro px py hne
    rcases fetch_next_spec g px py with ⟨e, _⟩ | ⟨_, i, hi, j, hj, e1, e2, _, hlt⟩
    · exact absurd e hne
    · rw [e1, e2]
      exact ⟨hlt, by omega⟩

theorem sodoku_color_terminates_witness :
    (∃ r, ∀ fuel, (81 ≤ fuel ∨ 81 < fuel + filled classic_puzzle.nodes) →
      sodoku_color fuel classic_puzzle = some r) ∧
    (∃ q, quick_color_loop 82 classic_puzzle (List.replicate 81 ⟨0, 0, 0⟩) = some q) ∧
    (∀ cs : List sodoku_set_member, cs.length = 81 →
      ((∃ b, b < 9 ∧ ∃ k, k < 9 ∧
          (colors_get (quick_color_pass classic_puzzle cs).2 b k).count = 1) →
        classic_puzzle.colored < (quick_color_pass classic_puzzle cs).1.1.colored) ∧
      ((quick_color_pass classic_puzzle cs).1.2 ≠ 0 →
        classic_puzzle.colored < (quick_color_pass classic_puzzle cs).1.1.colored)) ∧
    (∀ px py : Int, (sodoku_fetch_next_node classic_puzzle px py).1 ≠ 0 →
      px * 9 + py < (sodoku_fetch_next_node classic_puzzle px py).2.1 * 9
        + (sodoku_fetch_next_node classic_puzzle px py).2.2 ∧
      (sodoku_fetch_next_node classic_puzzle px py).2.1 * 9
        + (sodoku_fetch_next_node classic_puzzle px py).2.2 ≤ 80) :=
  sodoku_color_terminates classic_puzzle (by decide!) (by decide!)


/-! ## The subscripts of the adjacency set -/

theorem add_mapping_subscripts_range (g : graph_t) (hs : grid_shape g) (x y tx ty : Nat)
    (htx : tx < 9) (hty : ty < 9) :
    ∀ s, s ∈ add_relationship_mapping_subscripts g x y tx ty → 0 ≤ s ∧ s ≤ 8 := by
  intro s hmem
  unfold add_relationship_mapping_subscripts at hmem
  have hok := node_cell_ok g hs tx ty htx hty
  unfold cell_ok at hok
  by_cases h1 : x ≠ tx ∨ y ≠ ty
  · rw [if_pos h1] at hmem
    dsimp only at hmem
    by_cases h2 : sodoku_node_value g tx ty ≠ 45
    · rw [if_pos h2] at hmem
      rw [List.mem_singleton] at hmem
      omega
    · rw [if_neg h2] at hmem
      exact absurd hmem (List.not_mem_nil s)
  · rw [if_neg h1] at hmem
    exact absurd hmem (List.not_mem_nil s)

/-- C19: every call of `sodoku_fetch_adj_values` writes subscript 9 of the
length-9 vector `adj`: its initialisation runs `adj[i] = 0` for `i = 0 .. 9`.
On a well formed grid and an in-range cell all the other writes go to
subscripts 0..8. -/
theorem fetch_adj_values_writes_past_end (g : graph_t) (x y : Nat) :
    init_relationship_map_subscripts = [0, 1, 2, 3, 4, 5, 6, 7, 8, 9] ∧
    (9 : Int) ∈ fetch_adj_values_subscripts g x y ∧
    (grid_shape g → x < 9 → y < 9 →
      ∃ rest, fetch_adj_values_subscripts g x y = init_relationship_map_subscripts ++ rest ∧
        ∀ s, s ∈ rest → 0 ≤ s ∧ s ≤ 8) := by
  refine ⟨by decide, ?_, ?_⟩
  · unfold fetch_adj_values_subscripts
    dsimp only
    apply foldl_range2_inv (fun _ (acc : List Int) => (9 : Int) ∈ acc)
      (fun acc i j => acc ++ add_relationship_mapping_subscripts g x y (x / 3 * 3 + i)
        (y / 3 * 3 + j))
    · apply foldl_range_inv (fun _ (acc : List Int) => (9 : Int) ∈ acc)
      · decide
      · intro i acc _ h
        exact List.mem_append_left _ (List.mem_append_left _ h)
    · intro i j acc _ _ h
      exact List.mem_append_left _ h
  · intro hs hx hy
    unfold fetch_adj_values_subscripts
    dsimp only
    apply foldl_range2_inv
      (fun _ (acc : List Int) => ∃ rest, acc = init_relationship_map_subscripts ++ rest ∧
        ∀ s, s ∈ rest → 0 ≤ s ∧ s ≤ 8)
      (fun acc i j => acc ++ add_relationship_mapping_subscripts g x y (x / 3 * 3 + i)
        (y / 3 * 3 + j))
    · apply foldl_range_inv
        (fun _ (acc : List Int) => ∃ rest, acc = init_relationship_map_subscripts ++ rest ∧
          ∀ s, s ∈ rest → 0 ≤ s ∧ s ≤ 8)
      · exact ⟨[], by simp, fun s h => absurd h (List.not_mem_nil s)⟩
      · intro i acc hi h
        obtain ⟨rest, e, hr⟩ := h
        refine ⟨(rest ++ add_relationship_mapping_subscripts g x y x i)
          ++ add_relationship_mapping_subscripts g x y i y, ?_, ?_⟩
        · dsimp only
          rw [e, List.append_assoc, List.append_assoc, List.append_assoc]
        · intro s hsm
          rcases List.mem_append.1 hsm with h1 | h1
          · rcases List.mem_append.1 h1 with h2 | h2
            · exact hr s h2
            · exact add_mapping_subscripts_range g hs x y x i hx hi s h2
          · exact add_mapping_subscripts_range g hs x y i y hi hy s h1
    · intro i j acc hi hj h
      obtain ⟨rest, e, hr⟩ := h
      refine ⟨rest ++ add_relationship_mapping_subscripts g x y (x / 3 * 3 + i)
        (y / 3 * 3 + j), ?_, ?_⟩
      · rw [e, List.append_assoc]
      · intro s hsm
        rcases List.mem_append.1 hsm with h1 | h1
        · exact hr s h1
        · exact add_mapping_subscripts_range g hs x y _ _ (by omega) (by omega) s h1
